import Mathlib

/-!
# Verification of the `worldlines` ECS core

A shallow embedding of the core data structures and operations of the
`worldlines` archetypal ECS (sparse sets, component sets, the access
aliasing checker, the entity allocator, the query iterator, column
storage, the table registry's `realloc`, resource borrows and
`EntityWorld::insert`), together with proofs and refutations of the
specification's claims about them.

Machine integers (`u32`, `usize`) are modelled as `Nat`; the code paths
verified here perform no wrapping arithmetic except where noted.
`ComponentInfo` / `ResourceInfo` / `TypeData` values are modelled by
their numeric id, which is exactly their equality and sparse index in
the source.

The file is organised as definitions first (the embedding), then the
supporting lemmas and the claim theorems.
-/

namespace Worldlines

/-! ## Sparse containers (`src/storage/sparse`, `src/util/sparse.rs`)

`SparseSet<I>` and `SparseMap<K, V>` are backed by a `Vec<Option<T>>`
indexed directly by `sparse_index()`.  `SMap α` models that backing
vector; the maintained `len` counters are carried separately by the
structures that observe them. -/

abbrev SMap (α : Type) : Type := List (Option α)

namespace SMap

def empty {α : Type} : SMap α := []

/-- `self.inner.get(n)` flattened: the value stored in slot `n`. -/
def get? {α : Type} (m : SMap α) (n : Nat) : Option α := List.getD m n none

/-- `Vec::resize_with(n, || None)` when `n` exceeds the current length. -/
def pad {α : Type} (m : SMap α) (n : Nat) : SMap α :=
  if n ≤ m.length then m else m ++ List.replicate (n - m.length) none

/-- `SparseSet::insert` / `SparseMap::insert`: resize so slot `n` exists,
then replace its content with `some v`. -/
def insert {α : Type} (m : SMap α) (n : Nat) (v : α) : SMap α :=
  (pad m (n + 1)).set n (some v)

/-- `SparseSet::remove` / `SparseMap::remove`: `get_mut(n).take()`
(a no-op when the slot does not exist). -/
def remove {α : Type} (m : SMap α) (n : Nat) : SMap α := m.set n none

/-- `contains`: the slot exists and is filled. -/
def containsKey {α : Type} (m : SMap α) (n : Nat) : Bool := (get? m n).isSome

/-- The filled slots in index order: what `SparseIter` yields. -/
def values {α : Type} (m : SMap α) : List α := m.filterMap id

end SMap

/-! ## `ComponentSet` (`src/component/set.rs`)

A `SparseSet<ComponentInfo>` keyed by `info.id()`; `ComponentInfo`
equality is id equality, so elements are modelled as their id.  The
`TypeSet` of `src/util/type_set.rs` has the identical representation
(`SparseSet<TypeData>` keyed by `component_id`), identical `insert`,
`remove`, `contains`, `intersection` and derived equality, plus a
`difference`; both are embedded by this one structure. -/

structure CompSet where
  inner : SMap Nat
  len : Nat
  deriving Repr, DecidableEq

namespace CompSet

def new : CompSet := ⟨SMap.empty, 0⟩

/-- `ComponentSet::contains` / `TypeSet::contains_type_data`. -/
def contains (s : CompSet) (id : Nat) : Bool := s.inner.containsKey id

/-- `ComponentSet::insert` (keyed by `info.sparse_index() = info.id()`). -/
def insert (s : CompSet) (info : Nat) : CompSet :=
  { inner := s.inner.insert info info
    len := if (s.inner.get? info).isSome then s.len else s.len + 1 }

/-- `ComponentSet::remove` / `TypeSet::remove_type_data`. -/
def remove (s : CompSet) (id : Nat) : CompSet :=
  match s.inner.get? id with
  | some _ => { inner := s.inner.remove id, len := s.len - 1 }
  | none => s

/-- `ComponentSet::intersection` / `TypeSet::intersection`: clone `self`,
then remove every member of `self` that `other` does not contain. -/
def intersection (s other : CompSet) : CompSet :=
  s.inner.values.foldl
    (fun acc c => if other.contains c then acc else acc.remove c) s

/-- `TypeSet::difference`: clone `self`, then remove every member of
`self` that `other` *does* contain. -/
def difference (s other : CompSet) : CompSet :=
  s.inner.values.foldl
    (fun acc c => if other.contains c then acc.remove c else acc) s

/-- The Rust `==` on `ComponentSet` / `TypeSet`: `SparseSet::eq`
compares the iterated values, not the backing slots. -/
def eqv (a b : CompSet) : Prop := a.inner.values = b.inner.values

instance (a b : CompSet) : Decidable (eqv a b) := by
  unfold eqv; infer_instance

/-- Reachability invariant of `SparseSet<ComponentInfo>`: slot `i` holds
the info whose id is `i` (inserts are keyed by the element's own id). -/
def keyedFrom : Nat → List (Option Nat) → Bool
  | _, [] => true
  | i, none :: t => keyedFrom (i + 1) t
  | i, some c :: t => c == i && keyedFrom (i + 1) t

def WF (s : CompSet) : Bool := keyedFrom 0 s.inner

/-- The propositional form of [`CompSet.WF`]. -/
def Keyed (s : CompSet) : Prop := ∀ i c, s.inner.get? i = some c → c = i

end CompSet

/-! ## The access model (`src/access.rs`)

`ComponentInfo` and `ResourceInfo` are modelled by their id. -/

inductive Level where
  | read
  | write
  deriving Repr, DecidableEq

/-- `Level` derives `Ord` with `Read < Write`; `Option<Level>` orders
`None` below `Some`. `optLevelMax` is `Option::max`. -/
def Level.le : Level → Level → Bool
  | .read, _ => true
  | .write, .write => true
  | .write, .read => false

def optLevelLe : Option Level → Option Level → Bool
  | none, _ => true
  | some _, none => false
  | some a, some b => a.le b

def optLevelMax (a b : Option Level) : Option Level :=
  if optLevelLe a b then b else a

inductive AccessKind where
  | world
  | allEntities
  | component (info : Nat) (required : Bool)
  | resource (info : Nat) (required : Bool)
  deriving Repr, DecidableEq

structure Access where
  kind : AccessKind
  level : Level
  deriving Repr, DecidableEq

namespace AccessKind

/-- `AccessKind::disjoint_with`, arm for arm.  The wildcard arm of the
source `match` makes every pair not covered by the first three arms —
including `Component` vs `Resource` — *not* disjoint. -/
def disjointWith : AccessKind → AccessKind → Bool
  | .component lhs _, .component rhs _ => lhs != rhs
  | .resource lhs _, .resource rhs _ => lhs != rhs
  | .allEntities, .resource _ _ => true
  | .resource _ _, .allEntities => true
  | _, _ => false

end AccessKind

namespace Access

/-- `Access::conflicts_with`. -/
def conflictsWith (a b : Access) : Bool :=
  (a.level == .write || b.level == .write) && !(a.kind.disjointWith b.kind)

def world (level : Level) : Access := ⟨.world, level⟩

def allEntities (level : Level) : Access := ⟨.allEntities, level⟩

def component (info : Nat) (level : Level) : Access :=
  ⟨.component info false, level⟩

def requiredComponent (info : Nat) (level : Level) : Access :=
  ⟨.component info true, level⟩

def resource (info : Nat) (level : Level) : Access :=
  ⟨.resource info false, level⟩

def requiredResource (info : Nat) (level : Level) : Access :=
  ⟨.resource info true, level⟩

end Access

/-- An `Access` as recorded in `WorldAccess.components`. -/
structure ComponentAccess where
  info : Nat
  level : Level
  required : Bool
  deriving Repr, DecidableEq

/-- An `Access` as recorded in `WorldAccess.resources`. -/
structure ResourceAccess where
  info : Nat
  level : Level
  required : Bool
  deriving Repr, DecidableEq

structure AccessError where
  lhs : Access
  rhs : Access
  deriving Repr, DecidableEq

/-- `WorldAccess`.  The two sparse sets are keyed by `info.sparse_index()
= info.id()`; their `len` counters are unobserved by the verified
operations and omitted. -/
structure WorldAccess where
  level : Option Level
  world : Option Level
  allEntities : Option Level
  components : SMap ComponentAccess
  resources : SMap ResourceAccess
  error : Option AccessError
  deriving Repr, DecidableEq

namespace WorldAccess

def new : WorldAccess :=
  { level := none, world := none, allEntities := none
    components := SMap.empty, resources := SMap.empty, error := none }

def componentAccessToAccess (ca : ComponentAccess) : Access :=
  ⟨.component ca.info ca.required, ca.level⟩

def resourceAccessToAccess (ra : ResourceAccess) : Access :=
  ⟨.resource ra.info ra.required, ra.level⟩

/-- `WorldAccess::accesses`: world, all-entities, then the component and
resource records in sparse-index order. -/
def accesses (s : WorldAccess) : List Access :=
  ((s.world.map Access.world).toList ++
      (s.allEntities.map Access.allEntities).toList) ++
    s.components.values.map componentAccessToAccess ++
    s.resources.values.map resourceAccessToAccess

/-- The `for` scan in `WorldAccess::add`: the first already-recorded
access conflicting with `a`, if any. -/
def findConflict (a : Access) : List Access → Option Access
  | [] => none
  | e :: rest =>
    if a.conflictsWith e then some e else findConflict a rest

/-- `WorldAccess::add`: a no-op once an error is latched; otherwise
raise the level summary, record the first conflict with the existing
accesses (if any) as the error, and insert the access. -/
def add (s : WorldAccess) (a : Access) : WorldAccess :=
  if s.error.isSome then s
  else
    let level := optLevelMax s.level (some a.level)
    let error := (findConflict a s.accesses).map fun e => AccessError.mk a e
    let s' := { s with level := level, error := error }
    match a.kind with
    | .world => { s' with world := some a.level }
    | .allEntities => { s' with allEntities := some a.level }
    | .component info required =>
      { s' with components :=
          s'.components.insert info ⟨info, a.level, required⟩ }
    | .resource info required =>
      { s' with resources :=
          s'.resources.insert info ⟨info, a.level, required⟩ }

/-- `WorldAccess::result().is_err()`. -/
def hasError (s : WorldAccess) : Bool := s.error.isSome

/-- A fresh `WorldAccess` populated by a sequence of `add` calls, as a
query or system builds its access set. -/
def buildAll (as : List Access) : WorldAccess := as.foldl add new

/-- `WorldAccess::matches`: every *required* component access must be
in the table's component set. -/
def matchesSet (s : WorldAccess) (components : CompSet) : Bool :=
  s.accesses.all fun a =>
    match a.kind with
    | .component info true => components.contains info
    | _ => true

end WorldAccess

/-- The conflict-relevant part of an `AccessKind`: `conflicts_with`
ignores the `required` flags, so two kinds with the same key behave
identically in every conflict check. -/
inductive AccessKey where
  | world
  | allEntities
  | component (info : Nat)
  | resource (info : Nat)
  deriving Repr, DecidableEq

def AccessKind.key : AccessKind → AccessKey
  | .world => .world
  | .allEntities => .allEntities
  | .component info _ => .component info
  | .resource info _ => .resource info

/-- `AccessKind::disjoint_with` expressed on keys. -/
def AccessKey.disjoint : AccessKey → AccessKey → Bool
  | .component lhs, .component rhs => lhs != rhs
  | .resource lhs, .resource rhs => lhs != rhs
  | .allEntities, .resource _ => true
  | .resource _, .allEntities => true
  | _, _ => false

/-- The footprint of an access: everything `conflicts_with` looks at. -/
def Access.fp (a : Access) : AccessKey × Level := (a.kind.key, a.level)

/-- Reachability invariant of `WorldAccess`: the component and resource
records sit in the slot of their own id. -/
def WorldAccess.KeyedState (s : WorldAccess) : Prop :=
  (∀ i ca, s.components.get? i = some ca → ca.info = i) ∧
  (∀ i ra, s.resources.get? i = some ra → ra.info = i)

/-! ### Query data access declarations (`src/query/mod.rs`)

What `D::access` contributes for the `EntityRef` and `EntityMut` query
data atoms.  Note both declare `Level::Read` in the source. -/

/-- `QueryData for EntityRef`: `builder.borrows_all_entities(Level::Read)`. -/
def entityRefAccess (s : WorldAccess) : WorldAccess :=
  s.add (Access.allEntities .read)

/-- `QueryData for EntityMut`: `builder.borrows_all_entities(Level::Read)`
(the source passes `Level::Read` despite its safety comment saying the
access mutably borrows all components). -/
def entityMutAccess (s : WorldAccess) : WorldAccess :=
  s.add (Access.allEntities .read)

/-! ## The entity allocator (`src/entity/allocator.rs`)

`EntityId` is `(index: u32, version: NonZeroU32)`; versions are `Nat`
with initial value 1 (`NonZeroU32::new_unchecked(1)`), and the
`checked_add` overflow abort cannot fire in `Nat`.  The `cursor`
`AtomicIsize` and `reserved` `AtomicUsize` are plain fields: every
verified operation takes `&mut self` or runs single-threaded. -/

structure EntityId where
  index : Nat
  version : Nat
  deriving Repr, DecidableEq

/-- `EntityAddr { table: TableId, row: TableRow }`. -/
structure EntityAddr where
  table : Nat
  row : Nat
  deriving Repr, DecidableEq

structure EntitySlot where
  version : Nat
  alive : Bool
  addr : Option EntityAddr
  deriving Repr, DecidableEq

namespace EntitySlot

/-- `EntitySlot::new`: version 1, alive, no address. -/
def new : EntitySlot := ⟨1, true, none⟩

end EntitySlot

structure Entities where
  slots : List EntitySlot
  cursor : Int
  pending : List Nat
  allocated : Nat
  reserved : Nat
  deriving Repr, DecidableEq

namespace Entities

def new : Entities := ⟨[], 0, [], 0, 0⟩

/-- `Entities::len`. -/
def len (s : Entities) : Nat := s.allocated + s.reserved

/-- `Entities::contains`. -/
def contains (s : Entities) (e : EntityId) : Bool :=
  match s.slots.get? e.index with
  | some slot => slot.alive && slot.version == e.version
  | none =>
    e.version == 1 && decide (s.cursor < 0) &&
      decide ((e.index : Int) ≤ (s.cursor.natAbs : Int) + s.slots.length)

/-- `Entities::get`: the address stored in the slot (no version check). -/
def get (s : Entities) (e : EntityId) : Option EntityAddr :=
  (s.slots.get? e.index).bind (·.addr)

/-- `Entities::flush`. -/
def flush (s : Entities) : Entities :=
  if s.reserved = 0 then s
  else
    let c := s.cursor
    if 0 ≤ c then
      { slots := s.slots
        cursor := c
        pending := []
        allocated := s.allocated + (s.pending.length - c.toNat)
        reserved := 0 }
    else
      { slots := s.slots ++ List.replicate c.natAbs EntitySlot.new
        cursor := 0
        pending := []
        allocated := (s.allocated + c.natAbs) + s.pending.length
        reserved := 0 }

/-- `Entities::alloc`: flush, then pop a pending index (reusing its
slot and current version) or push a fresh slot. -/
def alloc (s0 : Entities) : EntityId × Entities :=
  let s1 := s0.flush
  let s := { s1 with allocated := s1.allocated + 1 }
  match s.pending.getLast? with
  | some index =>
    let pending := s.pending.dropLast
    let s' := { s with pending := pending, cursor := (pending.length : Int) }
    (⟨index, (s'.slots.getD index EntitySlot.new).version⟩, s')
  | none =>
    let s' := { s with slots := s.slots ++ [EntitySlot.new] }
    (⟨s'.slots.length + s'.reserved - 1, 1⟩, s')

/-- `Entities::reserve` (single-threaded view of the two atomics). -/
def reserve (s0 : Entities) : EntityId × Entities :=
  let s1 := { s0 with reserved := s0.reserved + 1 }
  let n := s1.cursor
  let s := { s1 with cursor := n - 1 }
  if 0 < n then
    let index := s.pending.getD (n.toNat - 1) 0
    (⟨index, (s.slots.getD index EntitySlot.new).version⟩, s)
  else
    (⟨s.slots.length + (-n).toNat, 1⟩, s)

/-- `Entities::free`: flush; on a version match take the address, bump
the version, clear `alive`, and push the index onto the free list. -/
def free (s0 : Entities) (e : EntityId) : Option EntityAddr × Entities :=
  let s := s0.flush
  match s.slots.get? e.index with
  | none => (none, s)
  | some slot =>
    if e.version ≠ slot.version then (none, s)
    else
      let pending := s.pending ++ [e.index]
      (slot.addr,
        { s with
          slots := s.slots.set e.index ⟨slot.version + 1, false, none⟩
          pending := pending
          cursor := (pending.length : Int)
          allocated := s.allocated - 1 })

/-- `Entities::set`: flush; write the address if the slot is alive and
the version matches. -/
def set (s0 : Entities) (e : EntityId) (addr : EntityAddr) :
    Option Unit × Entities :=
  let s := s0.flush
  match s.slots.get? e.index with
  | some slot =>
    if slot.alive && slot.version == e.version then
      (some (),
        { s with slots := s.slots.set e.index { slot with addr := some addr } })
    else (none, s)
  | none => (none, s)

end Entities

/-! ## The query iterator (`src/query/mod.rs`, `src/storage/table.rs`)

`Query::iter` starts from `tables` (the matched `TableIndex`es in
sparse-set order, i.e. ascending), `len = Σ matched table lengths`,
`table = None`, `row = TableRow(0)`.  A table is its
`SparseMap<TableRow, EntityId>` of entities; entity ids are abstract
`Nat`s.  `QueryIter::next` yields `D::get` on the entity it finds; the
embedding yields the entity itself (what row is visited). -/

structure QTable where
  entities : SMap Nat
  deriving Repr, DecidableEq

namespace QTable

/-- `Table::entity(row)`. -/
def entity (t : QTable) (row : Nat) : Option Nat := t.entities.get? row

/-- `table.entities().next()`: the first filled slot. -/
def firstEntity (t : QTable) : Option Nat := t.entities.values.head?

end QTable

structure QueryIterState where
  tables : List Nat
  len : Nat
  table : Option Nat
  row : Nat
  deriving Repr, DecidableEq

/-- `self.world.as_ref().components.get_unchecked(table)`. -/
def getQTable (world : List QTable) (i : Nat) : QTable :=
  world.getD i ⟨[]⟩

/-- `QueryIter::next`: stop at `len = 0`; take the current table or pop
the next matched one; read `table.entity(self.row)` falling back to the
table's first entity; on a hit yield it and decrement `len` (the `row`
field is never advanced by the source); on a miss reset to the next
table and recurse. -/
def qnext (world : List QTable) (s : QueryIterState) :
    Option (Nat × QueryIterState) :=
  if s.len = 0 then none
  else
    match htb : s.table with
    | some t =>
      match ((getQTable world t).entity s.row).or
          (getQTable world t).firstEntity with
      | some e => some (e, { s with len := s.len - 1 })
      | none =>
        if s.tables.length ≠ 0 then
          qnext world { s with table := none, row := 0 }
        else none
    | none =>
      match hts : s.tables with
      | [] => none
      | t :: rest =>
        match ((getQTable world t).entity s.row).or
            (getQTable world t).firstEntity with
        | some e =>
          some (e,
            { s with tables := rest, table := some t, len := s.len - 1 })
        | none =>
          if rest.length ≠ 0 then
            qnext world { s with tables := rest, table := none, row := 0 }
          else none
termination_by 2 * s.tables.length + (if s.table.isSome then 1 else 0)
decreasing_by
  all_goals simp_all

/-! ## `Column` (`src/storage/column.rs`)

The type-erased byte buffer, abstracted to its layout size, capacity,
pointer identity and allocation count (the stored bytes are irrelevant
to C9).  `usize::MAX` is `2^64 - 1`; `NonNull::dangling()` is the
abstract pointer `1`; each `alloc`/`realloc` yields a fresh abstract
pointer.  Addition in `grow` is `% 2^64` (release-mode wrapping). -/

def usizeMax : Nat := 2 ^ 64 - 1

def danglingPtr : Nat := 1

structure Column where
  size : Nat
  capacity : Nat
  ptr : Nat
  allocs : Nat
  deriving Repr, DecidableEq

namespace Column

/-- `Column::new`: a ZST column starts with capacity `usize::MAX` and a
dangling pointer; no allocation. -/
def new (size : Nat) : Column :=
  ⟨size, if size = 0 then usizeMax else 0, danglingPtr, 0⟩

/-- `Column::grow`: early-return for `capacity == usize::MAX` (the ZST
case); otherwise `new_capacity = (capacity + additional)
.max(capacity.checked_mul(2).unwrap_or_default())` and one
`alloc`/`realloc`. -/
def grow (c : Column) (additional : Nat) : Column :=
  if c.capacity = usizeMax then c
  else
    let newCapacity :=
      max ((c.capacity + additional) % 2 ^ 64)
        (if c.capacity * 2 < 2 ^ 64 then c.capacity * 2 else 0)
    { c with
      capacity := newCapacity
      ptr := danglingPtr + 1 + c.allocs
      allocs := c.allocs + 1 }

/-- `Column::write` via `get_or_alloc`: grow exactly when the row is
out of capacity, then byte-copy into the slot (bytes not tracked). -/
def write (c : Column) (row : Nat) : Column :=
  if row < c.capacity then c else c.grow (row - c.capacity + 1)

end Column

/-- A sequence of `grow`/`write` calls against a column. -/
inductive ColOp where
  | growOp (n : Nat)
  | writeOp (row : Nat)
  deriving Repr, DecidableEq

def applyColOps (c : Column) : List ColOp → Column
  | [] => c
  | .growOp n :: t => applyColOps (c.grow n) t
  | .writeOp r :: t => applyColOps (c.write r) t

/-! ## Resource storage (`src/resource/storage.rs`)

`ResourceBox` wraps the stored value in an `AtomicRefCell` (external
`atomic_refcell` crate, standard `RefCell` borrow discipline: any
number of shared borrows xor one mutable borrow).  Resource types are
identified by their type id (a `Nat`), which also stands in for the
`type_name` carried by `ResourceError`. -/

inductive ResourceError where
  | notFound (name : Nat)
  | alreadyBorrowed (name : Nat)
  deriving Repr, DecidableEq

structure ResourceBox where
  value : Nat
  readers : Nat
  writing : Bool
  deriving Repr, DecidableEq

namespace ResourceBox

def new (v : Nat) : ResourceBox := ⟨v, 0, false⟩

/-- `AtomicRefCell::try_borrow`: fails iff a mutable borrow is alive. -/
def tryBorrow (b : ResourceBox) : Option ResourceBox :=
  if b.writing then none else some { b with readers := b.readers + 1 }

/-- `AtomicRefCell::try_borrow_mut`: fails iff any borrow is alive. -/
def tryBorrowMut (b : ResourceBox) : Option ResourceBox :=
  if b.writing || b.readers != 0 then none
  else some { b with writing := true }

/-- `ResourceBox::get::<R>`: `try_borrow`, mapping failure to
`AlreadyBorrowed`. -/
def get (b : ResourceBox) (name : Nat) :
    Except ResourceError (Nat × ResourceBox) :=
  match b.tryBorrow with
  | some b' => .ok (b'.value, b')
  | none => .error (.alreadyBorrowed name)

/-- `ResourceBox::get_mut::<R>`: `try_borrow_mut`, mapping failure to
`AlreadyBorrowed`. -/
def getMut (b : ResourceBox) (name : Nat) :
    Except ResourceError (Nat × ResourceBox) :=
  match b.tryBorrowMut with
  | some b' => .ok (b'.value, b')
  | none => .error (.alreadyBorrowed name)

end ResourceBox

structure Resources where
  registry : List (Nat × Nat)
  resources : SMap ResourceBox
  deriving Repr, DecidableEq

namespace Resources

/-- `Resources::info_of`: registry lookup by type id, `NotFound` when
the type was never registered. -/
def infoOf (rs : Resources) (tid : Nat) : Except ResourceError Nat :=
  match rs.registry.lookup tid with
  | some idx => .ok idx
  | none => .error (.notFound tid)

/-- `Resources::get`: look up the box and `try_borrow` it.  A granted
borrow is the updated box state (the incremented reader count). -/
def get (rs : Resources) (tid : Nat) :
    Except ResourceError (Nat × Resources) :=
  match rs.infoOf tid with
  | .error e => .error e
  | .ok idx =>
    match rs.resources.get? idx with
    | none => .error (.notFound tid)
    | some box =>
      match box.get tid with
      | .error e => .error e
      | .ok (v, box') =>
        .ok (v, { rs with resources := rs.resources.insert idx box' })

/-- `Resources::get_mut`: look up the box and `try_borrow_mut` it. -/
def getMut (rs : Resources) (tid : Nat) :
    Except ResourceError (Nat × Resources) :=
  match rs.infoOf tid with
  | .error e => .error e
  | .ok idx =>
    match rs.resources.get? idx with
    | none => .error (.notFound tid)
    | some box =>
      match box.getMut tid with
      | .error e => .error e
      | .ok (v, box') =>
        .ok (v, { rs with resources := rs.resources.insert idx box' })

end Resources

/-! ## Cross-table moves (`src/component/storage.rs` `Components::realloc`,
`src/component/table.rs`, `src/component/column.rs`)

The `TypeSet` header of a table is a `CompSet` (identical code, see
above).  A column is abstracted to its cells — component values per
entity index, bytes as an abstract `Nat`, `none` for a cell never
written; capacity growth cannot change any cell.  The embedding logs a
`copyEv c` for every byte-copy performed by `write_ptr` during the
move and a `dropEv c` for every `drop_fn` invocation, so that "neither
dropped nor copied twice" is statable. -/

inductive MoveEv where
  | copyEv (c : Nat)
  | dropEv (c : Nat)
  deriving Repr, DecidableEq

structure OColumn where
  data : Nat → Option Nat

namespace OColumn

/-- `Column::new` (no cell written yet). -/
def new : OColumn := ⟨fun _ => none⟩

/-- `Column::write(index, ptr)`: byte-copy the source cell into the
slot (growing first, which changes no cell). -/
def write (c : OColumn) (idx : Nat) (v : Option Nat) : OColumn :=
  ⟨fun j => if j = idx then v else c.data j⟩

end OColumn

structure OTable where
  header : CompSet
  entities : SMap Nat
  columns : SMap OColumn

namespace OTable

/-- `Table::new`: one column per filled header slot, same positions. -/
def new (header : CompSet) : OTable :=
  { header := header
    entities := SMap.empty
    columns := header.inner.map (Option.map fun _ => OColumn.new) }

/-- `Table::contains`. -/
def containsEntity (t : OTable) (e : Nat) : Bool := t.entities.containsKey e

/-- The cell of component `c` at entity index `e`: what
`get_ptr_unchecked_mut` points at. -/
def cell (t : OTable) (c e : Nat) : Option Nat :=
  (t.columns.get? c).bind fun col => col.data e

/-- `Table::write_ptr`: look up the column (`None` short-circuits
before anything changes), insert the entity, copy the bytes. -/
def writePtr (t : OTable) (e c : Nat) (v : Option Nat) : OTable :=
  match t.columns.get? c with
  | none => t
  | some col =>
    { t with
      entities := t.entities.insert e e
      columns := t.columns.insert c (col.write e v) }

end OTable

structure OComponents where
  typeSets : List (CompSet × Nat)
  tables : List OTable

/-- `HashMap<TypeSet, TableId>` lookup: key equality is the `TypeSet`
value equality `eqv`. -/
def findTypeSet : List (CompSet × Nat) → CompSet → Option Nat
  | [], _ => none
  | (k, i) :: rest, h =>
    if CompSet.eqv k h then some i else findTypeSet rest h

/-- One iteration of `realloc`'s move loop over `old ∩ new`: read the
old cell, `new_table.insert(entity)`, `new_table.write_ptr` (copying
iff the target column exists), `old_table.remove(entity)`. -/
def moveStep (e : Nat) (st : OTable × OTable × List MoveEv) (c : Nat) :
    OTable × OTable × List MoveEv :=
  match st.2.1.columns.get? c with
  | none =>
    ({ st.1 with entities := st.1.entities.remove e },
      { st.2.1 with entities := st.2.1.entities.insert e e },
      st.2.2)
  | some col =>
    ({ st.1 with entities := st.1.entities.remove e },
      { st.2.1 with
        entities := (st.2.1.entities.insert e e).insert e e
        columns := st.2.1.columns.insert c (col.write e (st.1.cell c e)) },
      st.2.2 ++ [MoveEv.copyEv c])

namespace OComponents

/-- `Components::realloc` (`src/component/storage.rs:90-159`): bail out
if the entity is not in the old table or the header is unchanged; find
or create the target table; bail out if it is the old table; move every
component of `old ∩ new` by byte-copy; drop the difference if `drop`
is set; run `init` when components were added.  Returns the new table
id, the updated store, and the copy/drop event log. -/
def realloc (cs : OComponents) (e : Nat) (oldId : Nat)
    (newHeader : CompSet) (dropFlag : Bool) (init : OTable → OTable) :
    Option Nat × OComponents × List MoveEv :=
  match cs.tables.get? oldId with
  | none => (none, cs, [])
  | some oldT0 =>
    if ¬ oldT0.containsEntity e ∨ CompSet.eqv oldT0.header newHeader then
      (none, cs, [])
    else
      let found := findTypeSet cs.typeSets newHeader
      let newId := found.getD cs.tables.length
      let cs1 :=
        match found with
        | some _ => cs
        | none =>
          { cs with
            typeSets := cs.typeSets ++ [(newHeader, cs.tables.length)]
            tables := cs.tables ++ [OTable.new newHeader] }
      if oldId = newId then (none, cs1, [])
      else
        match cs1.tables.get? oldId, cs1.tables.get? newId with
        | some oldT, some newT =>
          let inter := oldT.header.intersection newHeader
          let moved := inter.inner.values.foldl (moveStep e) (oldT, newT, [])
          let oldT1 := moved.1
          let newT1 := moved.2.1
          let evs1 := moved.2.2
          let diff := oldT.header.difference newHeader
          let evs2 :=
            if dropFlag then evs1 ++ diff.inner.values.map MoveEv.dropEv
            else evs1
          let newT2 :=
            if oldT.header.len < newHeader.len then init newT1 else newT1
          (some newId,
            { cs1 with
              tables := (cs1.tables.set oldId oldT1).set newId newT2 },
            evs2)
        | _, _ => (none, cs1, [])

end OComponents

/-- Decidable well-formedness of an `OTable`: header keyed by id and
columns parallel to the header slots (as `Table::new` builds them and
no operation disturbs). -/
def OTableWFb (t : OTable) : Bool :=
  CompSet.WF t.header &&
    t.columns.map Option.isSome == t.header.inner.map Option.isSome

/-- Decidable well-formedness of the table registry: every table is
well-formed and every `type_sets` entry maps its key to a table with
that header. -/
def OComponentsWFb (cs : OComponents) : Bool :=
  cs.tables.all OTableWFb &&
    cs.typeSets.all fun p =>
      match cs.tables.get? p.2 with
      | some t => decide (CompSet.eqv t.header p.1)
      | none => false

/-! ## `EntityWorld::insert` (`src/entity/world.rs`, `src/storage/table.rs`)

The row-addressed `Table` of `src/storage/table.rs`:
`{ components: ComponentSet, entities: SparseMap<TableRow, EntityId>,
columns: SparseMap<ComponentId, Column> }`.  Columns are abstracted to
their cells per `TableRow` as for C6.  The `after_insert` hook is a
user callback; the embedding records its invocations (by component id)
instead of running user code. -/

structure MColumn where
  data : Nat → Option Nat

namespace MColumn

/-- A freshly created column (no cell written yet). -/
def new : MColumn := ⟨fun _ => none⟩

end MColumn

structure MTable where
  components : CompSet
  entities : SMap Nat
  entityCount : Nat
  columns : SMap MColumn

namespace MTable

/-- `Table::with_capacity` restricted to its shape: one column per
filled component slot (capacity does not affect cells). -/
def new (components : CompSet) : MTable :=
  { components := components
    entities := SMap.empty
    entityCount := 0
    columns := components.inner.map (Option.map fun _ => MColumn.new) }

/-- The cell of component `c` at `row`. -/
def cell (t : MTable) (c row : Nat) : Option Nat :=
  (t.columns.get? c).bind fun col => col.data row

/-- `Table::write` / `write_ptr`: copy the value into the column's slot
for the row; `None` (missing column) changes nothing. -/
def write (t : MTable) (row c : Nat) (v : Nat) : MTable :=
  match t.columns.get? c with
  | none => t
  | some col =>
    { t with columns :=
        t.columns.insert c ⟨fun j => if j = row then some v else col.data j⟩ }

/-- `Table::replace`: read the previous value, write the new one. -/
def replace (t : MTable) (row c : Nat) (v : Nat) : Option Nat × MTable :=
  (t.cell c row, t.write row c v)

/-- `Table::push`: append the entity at row `entities.len()`. -/
def push (t : MTable) (e : Nat) : Nat × MTable :=
  (t.entityCount,
    { t with
      entities := t.entities.insert t.entityCount e
      entityCount := t.entityCount + 1 })

end MTable

structure MComponents where
  tables : List MTable

/-- Index of the canonical table for a component set. -/
def findTableBySet : List MTable → CompSet → Option Nat
  | [], _ => none
  | t :: rest, s =>
    if CompSet.eqv t.components s then some 0
    else (findTableBySet rest s).map (· + 1)

namespace MComponents

/-- Modelled from the spec: the `Components` registry of the revision
`src/entity/world.rs` belongs to (its `get_unchecked` and
`realloc(entity, old_addr, new_set) → EntityAddr` are called there but
the registry itself is not among the provided sources).  Spec §4.4:
`realloc` finds or allocates the canonical table for the new set,
pushes the entity to the new table, byte-copies every component of
`old ∩ new` from the old row to the new row, removes the old row
without dropping, and returns the new `(table, row)`. -/
def realloc (cs : MComponents) (e : Nat) (oldAddr : EntityAddr)
    (newSet : CompSet) : EntityAddr × MComponents :=
  let found := findTableBySet cs.tables newSet
  let newId := found.getD cs.tables.length
  let tables1 :=
    match found with
    | some _ => cs.tables
    | none => cs.tables ++ [MTable.new newSet]
  match tables1.get? oldAddr.table, tables1.get? newId with
  | some oldT, some newT =>
    let pushed := newT.push e
    let row := pushed.1
    let inter := oldT.components.intersection newSet
    let newT1 := inter.inner.values.foldl
      (fun nt c =>
        match oldT.cell c oldAddr.row with
        | some v => nt.write row c v
        | none => nt)
      pushed.2
    let oldT1 := { oldT with
      entities := oldT.entities.remove oldAddr.row
      entityCount := oldT.entityCount - 1 }
    (⟨newId, row⟩, ⟨(tables1.set oldAddr.table oldT1).set newId newT1⟩)
  | _, _ => (oldAddr, ⟨tables1⟩)

end MComponents

structure MWorld where
  entities : Entities
  components : MComponents

namespace MWorld

/-- `EntityWorld::insert` (`src/entity/world.rs:92-144`): if the
entity's table already has the component, `Table::replace` the value in
place and return the previous one; otherwise realloc to the extended
set, store the address, write the new component, and invoke
`C::after_insert`.  The returned list logs the `after_insert`
invocations. -/
def insert (w : MWorld) (id : EntityId) (cid v : Nat) :
    Option Nat × MWorld × List Nat :=
  match w.entities.get id with
  | none => (none, w, [])
  | some oldAddr =>
    match w.components.tables.get? oldAddr.table with
    | none => (none, w, [])
    | some oldT =>
      if oldT.components.contains cid then
        let replaced := oldT.replace oldAddr.row cid v
        (replaced.1,
          ⟨w.entities,
            ⟨w.components.tables.set oldAddr.table replaced.2⟩⟩,
          [])
      else
        let newComponents := oldT.components.insert cid
        let reallocd := w.components.realloc id.index oldAddr newComponents
        let newAddr := reallocd.1
        let entities1 := (w.entities.set id newAddr).2
        let components1 :=
          match reallocd.2.tables.get? newAddr.table with
          | none => reallocd.2
          | some t =>
            MComponents.mk
              (reallocd.2.tables.set newAddr.table (t.write newAddr.row cid v))
        (none, ⟨entities1, components1⟩, [cid])

end MWorld

end Worldlines

/-! ## Lemmas and claim theorems -/

namespace Worldlines

namespace SMap

theorem get?_eq_getElem? {α : Type} (m : SMap α) (n : Nat) :
    get? m n = m[n]?.getD none := by
  unfold get?
  rw [List.getD_eq_getElem?_getD]

theorem get?_pad {α : Type} (m : SMap α) (n j : Nat) :
    get? (pad m n) j = get? m j := by
  unfold pad
  split
  · rfl
  · rw [get?_eq_getElem?, get?_eq_getElem?, List.getElem?_append]
    split
    · rfl
    · next h2 =>
      rw [List.getElem?_replicate,
        List.getElem?_eq_none (Nat.le_of_not_lt h2)]
      split <;> rfl

theorem length_pad_ge {α : Type} (m : SMap α) (n : Nat) :
    n ≤ (pad m n).length := by
  unfold pad
  split
  · assumption
  · simp only [List.length_append, List.length_replicate]
    omega

theorem get?_set {α : Type} (m : SMap α) (n j : Nat) (v : Option α) :
    get? (m.set n v) j =
      if j = n ∧ n < m.length then v else get? m j := by
  rw [get?_eq_getElem?, get?_eq_getElem?, List.getElem?_set]
  by_cases hj : n = j
  · subst hj
    by_cases h : n < m.length
    · simp [h]
    · simp [h, List.getElem?_eq_none (Nat.le_of_not_lt h)]
  · have : ¬(j = n ∧ n < m.length) := fun hh => hj hh.1.symm
    simp [hj, this]

theorem get?_insert {α : Type} (m : SMap α) (n j : Nat) (v : α) :
    get? (insert m n v) j = if j = n then some v else get? m j := by
  unfold insert
  rw [get?_set, get?_pad]
  have hlen : n < (pad m (n + 1)).length :=
    Nat.lt_of_lt_of_le (Nat.lt_succ_self n) (length_pad_ge m (n + 1))
  by_cases hj : j = n
  · simp [hj, hlen]
  · simp [hj]

theorem get?_remove {α : Type} (m : SMap α) (n j : Nat) :
    get? (remove m n) j = if j = n then none else get? m j := by
  unfold remove
  rw [get?_set]
  by_cases hj : j = n
  · rcases Nat.lt_or_ge n m.length with h | h
    · simp [hj, h]
    · simp [hj, Nat.not_lt.mpr h, get?_eq_getElem?,
        List.getElem?_eq_none h]
  · simp [hj]

theorem mem_values {α : Type} (m : SMap α) (x : α) :
    x ∈ values m ↔ ∃ j, get? m j = some x := by
  unfold values
  rw [List.mem_filterMap]
  constructor
  · rintro ⟨o, ho, rfl⟩
    obtain ⟨j, hj, hget⟩ := List.getElem_of_mem ho
    exact ⟨j, by
      simp [get?_eq_getElem?, List.getElem?_eq_getElem hj, hget]⟩
  · rintro ⟨j, hj⟩
    refine ⟨some x, ?_, rfl⟩
    rw [get?_eq_getElem?] at hj
    rcases h : m[j]? with _ | o
    · simp [h] at hj
    · rw [h] at hj
      simp only [Option.getD_some] at hj
      subst hj
      exact List.getElem?_mem h

theorem values_eq_nil_of_none {α : Type} (l : SMap α)
    (h : ∀ j, get? l j = none) : values l = [] := by
  induction l with
  | nil => rfl
  | cons o t ih =>
    have h0 := h 0
    simp [get?, List.getD] at h0
    subst h0
    simpa [values] using ih (fun j => h (j + 1))

/-- Two backing vectors with the same content at every slot have the same
filled values, whatever trailing empty slots each carries. -/
theorem values_ext {α : Type} (l1 l2 : SMap α)
    (h : ∀ j, get? l1 j = get? l2 j) : values l1 = values l2 := by
  induction l1 generalizing l2 with
  | nil =>
    exact (values_eq_nil_of_none l2 (fun j => (h j).symm)).symm
  | cons o t1 ih =>
    cases l2 with
    | nil =>
      exact values_eq_nil_of_none (o :: t1) (fun j => h j)
    | cons o2 t2 =>
      have h0 := h 0
      simp [get?, List.getD] at h0
      subst h0
      have ht := ih t2 (fun j => h (j + 1))
      cases o with
      | none => simpa [values] using ht
      | some a => simpa [values] using ht

theorem values_insert_mem {α : Type} (m : SMap α) (n : Nat) (v : α) :
    v ∈ values (insert m n v) :=
  (mem_values _ v).mpr ⟨n, by rw [get?_insert]; simp⟩

theorem mem_values_insert_of_ne {α : Type} {m : SMap α} {j n : Nat}
    {x : α} (v : α) (hj : get? m j = some x) (hne : j ≠ n) :
    x ∈ values (insert m n v) :=
  (mem_values _ x).mpr ⟨j, by rw [get?_insert, if_neg hne]; exact hj⟩

theorem mem_of_mem_values_insert {α : Type} {m : SMap α} {n : Nat}
    {v x : α} (h : x ∈ values (insert m n v)) :
    x = v ∨ x ∈ values m := by
  rw [mem_values] at h
  obtain ⟨j, hj⟩ := h
  rw [get?_insert] at hj
  by_cases hjn : j = n
  · rw [if_pos hjn] at hj
    exact Or.inl (Option.some.inj hj).symm
  · rw [if_neg hjn] at hj
    exact Or.inr ((mem_values m x).mpr ⟨j, hj⟩)

end SMap

namespace CompSet

theorem keyedFrom_get (l : List (Option Nat)) (n : Nat)
    (h : keyedFrom n l = true) :
    ∀ i c, SMap.get? l i = some c → c = n + i := by
  induction l generalizing n with
  | nil => intro i c hc; simp [SMap.get?, List.getD] at hc
  | cons o t ih =>
    intro i c hc
    cases i with
    | zero =>
      cases o with
      | none => simp [SMap.get?, List.getD] at hc
      | some a =>
        simp [SMap.get?, List.getD] at hc
        unfold keyedFrom at h
        simp at h
        omega
    | succ j =>
      have ht : keyedFrom (n + 1) t = true := by
        cases o with
        | none => simpa [keyedFrom] using h
        | some a =>
          unfold keyedFrom at h
          simp at h
          exact h.2
      have := ih (n + 1) ht j c (by simpa [SMap.get?, List.getD] using hc)
      omega

theorem wf_keyed {s : CompSet} (h : WF s = true) : Keyed s := by
  intro i c hc
  simpa using keyedFrom_get s.inner 0 h i c hc

theorem get?_remove_slot (s : CompSet) (n j : Nat) :
    (s.remove n).inner.get? j = if j = n then none else s.inner.get? j := by
  unfold remove
  rcases h : s.inner.get? n with _ | c
  · by_cases hj : j = n
    · simp [hj, h]
    · simp [hj]
  · simp [SMap.get?_remove]

theorem mem_values_of_keyed {s : CompSet} (hk : Keyed s) (i : Nat) :
    i ∈ s.inner.values ↔ s.inner.get? i = some i := by
  rw [SMap.mem_values]
  constructor
  · rintro ⟨j, hj⟩
    have := hk j i hj
    subst this
    exact hj
  · intro h
    exact ⟨i, h⟩

/-- Effect of the `intersection` fold on a single slot: slot `i` is
emptied exactly when `i` is iterated over and `other` lacks it. -/
theorem foldl_remove_get? (other : CompSet) (cs : List Nat) (s : CompSet)
    (i : Nat) :
    ((cs.foldl (fun acc c => if other.contains c then acc else acc.remove c)
        s).inner.get? i) =
      if i ∈ cs ∧ other.contains i = false then none else s.inner.get? i := by
  induction cs generalizing s with
  | nil => simp
  | cons c t ih =>
    simp only [List.foldl_cons]
    rw [ih]
    by_cases hc : other.contains c
    · simp only [hc, if_true]
      by_cases hit : i ∈ t ∧ other.contains i = false
      · have : i ∈ c :: t ∧ other.contains i = false :=
          ⟨List.mem_cons_of_mem _ hit.1, hit.2⟩
        simp [hit, this]
      · have hcc : ¬(i ∈ c :: t ∧ other.contains i = false) := by
          rintro ⟨h1, h2⟩
          rcases List.mem_cons.mp h1 with rfl | h1
          · rw [h2] at hc; cases hc
          · exact hit ⟨h1, h2⟩
        simp only [List.mem_cons] at hcc
        simp [hit, hcc]
    · simp only [Bool.not_eq_true] at hc
      simp only [hc, Bool.false_eq_true, if_false]
      by_cases hit : i ∈ t ∧ other.contains i = false
      · have hcc : i ∈ c :: t ∧ other.contains i = false :=
          ⟨List.mem_cons_of_mem _ hit.1, hit.2⟩
        simp only [List.mem_cons] at hcc
        simp [hit, hcc]
      · simp only [hit, if_false]
        rw [get?_remove_slot]
        by_cases hic : i = c
        · simp [hic, hc, List.mem_cons]
        · have hcc : ¬(i ∈ c :: t ∧ other.contains i = false) := by
            rintro ⟨h1, h2⟩
            rcases List.mem_cons.mp h1 with rfl | h1
            · exact hic rfl
            · exact hit ⟨h1, h2⟩
          simp only [List.mem_cons] at hcc
          simp [hic, hit]

/-- Slotwise characterisation of `intersection` on a keyed set. -/
theorem get?_intersection {a : CompSet} (b : CompSet) (ha : Keyed a)
    (i : Nat) :
    (a.intersection b).inner.get? i =
      if b.contains i then a.inner.get? i else none := by
  unfold intersection
  rw [foldl_remove_get?]
  by_cases hb : b.contains i
  · simp [hb]
  · simp only [Bool.not_eq_true] at hb
    rcases h : a.inner.get? i with _ | c
    · simp [hb, h]
    · have h' : a.inner.get? i = some i := by rw [h, ha i c h]
      have hmem : i ∈ a.inner.values := (mem_values_of_keyed ha i).mpr h'
      simp [hmem, hb]

theorem keyed_intersection {a : CompSet} (b : CompSet) (ha : Keyed a) :
    Keyed (a.intersection b) := by
  intro i c hc
  rw [get?_intersection b ha] at hc
  by_cases hb : b.contains i
  · rw [if_pos hb] at hc
    exact ha i c hc
  · rw [if_neg hb] at hc
    cases hc

/-- Slot value of an intersection of two keyed sets, in symmetric form. -/
theorem get?_intersection_symm {a b : CompSet} (ha : Keyed a) (hb : Keyed b)
    (i : Nat) :
    (a.intersection b).inner.get? i =
      if a.contains i ∧ b.contains i then some i else none := by
  rw [get?_intersection b ha]
  by_cases hbi : b.contains i
  · rcases h : a.inner.get? i with _ | c
    · have hca : a.contains i = false := by
        simp [contains, SMap.containsKey, h]
      simp [hbi, h, hca]
    · have h' : a.inner.get? i = some i := by rw [h, ha i c h]
      have hca : a.contains i = true := by
        simp [contains, SMap.containsKey, h']
      simp only [hbi, h, if_true, hca, true_and]
      rw [ha i c h]
  · simp [hbi]

theorem contains_intersection {a b : CompSet} (ha : Keyed a) (hb : Keyed b)
    (i : Nat) :
    (a.intersection b).contains i = (a.contains i && b.contains i) := by
  unfold contains SMap.containsKey
  rw [get?_intersection_symm ha hb]
  by_cases h1 : (a.inner.get? i).isSome <;>
    by_cases h2 : (b.inner.get? i).isSome <;>
      simp [contains, SMap.containsKey, h1, h2]

/-- Effect of the `difference` fold on a single slot. -/
theorem foldl_diff_get? (other : CompSet) (cs : List Nat) (s : CompSet)
    (i : Nat) :
    ((cs.foldl (fun acc c => if other.contains c then acc.remove c else acc)
        s).inner.get? i) =
      if i ∈ cs ∧ other.contains i = true then none else s.inner.get? i := by
  induction cs generalizing s with
  | nil => simp
  | cons c t ih =>
    simp only [List.foldl_cons]
    rw [ih]
    by_cases hc : other.contains c
    · simp only [hc, if_true]
      by_cases hit : i ∈ t ∧ other.contains i = true
      · have hcc : i ∈ c :: t ∧ other.contains i = true :=
          ⟨List.mem_cons_of_mem _ hit.1, hit.2⟩
        simp only [List.mem_cons] at hcc
        simp [hit, hcc]
      · simp only [hit, if_false]
        rw [get?_remove_slot]
        by_cases hic : i = c
        · simp [hic, hc, List.mem_cons]
        · have hcc : ¬(i ∈ c :: t ∧ other.contains i = true) := by
            rintro ⟨h1, h2⟩
            rcases List.mem_cons.mp h1 with rfl | h1
            · exact hic rfl
            · exact hit ⟨h1, h2⟩
          simp only [List.mem_cons] at hcc
          simp [hic, hit]
    · simp only [Bool.not_eq_true] at hc
      simp only [hc, Bool.false_eq_true, if_false]
      by_cases hit : i ∈ t ∧ other.contains i = true
      · have hcc : i ∈ c :: t ∧ other.contains i = true :=
          ⟨List.mem_cons_of_mem _ hit.1, hit.2⟩
        simp only [List.mem_cons] at hcc
        simp [hit, hcc]
      · have hcc : ¬(i ∈ c :: t ∧ other.contains i = true) := by
          rintro ⟨h1, h2⟩
          rcases List.mem_cons.mp h1 with rfl | h1
          · rw [h2] at hc; cases hc
          · exact hit ⟨h1, h2⟩
        simp only [List.mem_cons] at hcc
        simp [hit, hcc]

/-- Slotwise characterisation of `difference` on a keyed set. -/
theorem get?_difference {a : CompSet} (b : CompSet) (ha : Keyed a)
    (i : Nat) :
    (a.difference b).inner.get? i =
      if b.contains i then none else a.inner.get? i := by
  unfold difference
  rw [foldl_diff_get?]
  by_cases hb : b.contains i
  · rcases h : a.inner.get? i with _ | c
    · simp [hb, h]
    · have h2 : a.inner.get? i = some i := by rw [h, ha i c h]
      have hmem : i ∈ a.inner.values := (mem_values_of_keyed ha i).mpr h2
      simp [hmem, hb]
  · simp [hb]

/-- A member of the intersection of keyed sets is not in the keyed
difference with the same right-hand set. -/
theorem not_mem_difference {a b : CompSet} (ha : Keyed a) (hb : Keyed b)
    {c : Nat} (hmem : c ∈ (a.intersection b).inner.values) :
    c ∉ (a.difference b).inner.values := by
  intro hd
  have hkd : Keyed (a.difference b) := by
    intro i x hx
    rw [get?_difference b ha] at hx
    by_cases hbi : b.contains i
    · rw [if_pos hbi] at hx; cases hx
    · rw [if_neg hbi] at hx; exact ha i x hx
  have h1 := (mem_values_of_keyed (keyed_intersection b ha) c).mp hmem
  rw [get?_intersection_symm ha hb] at h1
  have hbc : b.contains c = true := by
    by_contra hno
    rw [if_neg (fun hh => hno hh.2)] at h1
    cases h1
  have h2 := (mem_values_of_keyed hkd c).mp hd
  rw [get?_difference b ha, if_pos hbc] at h2
  cases h2

theorem values_nodup_shift (l : List (Option Nat)) (n : Nat)
    (h : ∀ i c, SMap.get? l i = some c → c = n + i) :
    (SMap.values l).Nodup := by
  induction l generalizing n with
  | nil => exact List.nodup_nil
  | cons o t ih =>
    have ht : (SMap.values t).Nodup :=
      ih (n + 1) fun i c hc => by
        have := h (i + 1) c (by simpa [SMap.get?, List.getD] using hc)
        omega
    cases o with
    | none => simpa [SMap.values] using ht
    | some c0 =>
      have hc0 : c0 = n := by
        have := h 0 c0 (by simp [SMap.get?, List.getD])
        omega
      have hnot : c0 ∉ SMap.values t := by
        intro hmem
        obtain ⟨j, hj⟩ := (SMap.mem_values t c0).mp hmem
        have := h (j + 1) c0 (by simpa [SMap.get?, List.getD] using hj)
        omega
      simpa [SMap.values, hc0] using List.Nodup.cons (by simpa [hc0] using hnot) ht

theorem values_nodup_of_keyed {s : CompSet} (h : Keyed s) :
    s.inner.values.Nodup :=
  values_nodup_shift s.inner 0 fun i c hc => by
    have := h i c hc
    omega

/-- Two keyed sets that are `==` agree on every slot. -/
theorem keyed_eqv_get? {a b : CompSet} (ha : Keyed a) (hb : Keyed b)
    (h : eqv a b) (i : Nat) : a.inner.get? i = b.inner.get? i := by
  rcases hga : a.inner.get? i with _ | c
  · rcases hgb : b.inner.get? i with _ | d
    · rfl
    · have hgb2 : b.inner.get? i = some i := by rw [hgb, hb i d hgb]
      have hmem : i ∈ b.inner.values := (mem_values_of_keyed hb i).mpr hgb2
      rw [← h] at hmem
      have h2 := (mem_values_of_keyed ha i).mp hmem
      rw [h2] at hga
      cases hga
  · have hga2 : a.inner.get? i = some i := by rw [hga, ha i c hga]
    have hmem : i ∈ a.inner.values := (mem_values_of_keyed ha i).mpr hga2
    rw [h] at hmem
    have hgb2 := (mem_values_of_keyed hb i).mp hmem
    have hci : c = i := by
      rw [hga] at hga2
      exact Option.some.inj hga2
    rw [hgb2, hci]

theorem eqv_inter_self {S : CompSet} (h : Keyed S) :
    eqv (S.intersection S) S :=
  SMap.values_ext _ _ fun j => by
    rw [get?_intersection S h]
    rcases hh : S.inner.get? j with _ | c
    · simp [contains, SMap.containsKey, hh]
    · simp [contains, SMap.containsKey, hh]

end CompSet

/-- **C8.** `ComponentSet` intersection is idempotent, commutative and
associative under the Rust `==` (value-sequence equality), for every
reachable (id-keyed) component set:
`intersection(S, S) == S`, `intersection(S, S′) == intersection(S′, S)`,
and `intersection(intersection(S, S′), S″) ==
intersection(S, intersection(S′, S″))`. -/
theorem C8_componentset_intersection_algebra (S S' S'' : CompSet)
    (h : CompSet.WF S = true) (h' : CompSet.WF S' = true)
    (h'' : CompSet.WF S'' = true) :
    CompSet.eqv (S.intersection S) S ∧
    CompSet.eqv (S.intersection S') (S'.intersection S) ∧
    CompSet.eqv ((S.intersection S').intersection S'')
      (S.intersection (S'.intersection S'')) := by
  have k := CompSet.wf_keyed h
  have k' := CompSet.wf_keyed h'
  have k'' := CompSet.wf_keyed h''
  refine ⟨CompSet.eqv_inter_self k, ?_, ?_⟩
  · exact SMap.values_ext _ _ fun j => by
      rw [CompSet.get?_intersection_symm k k',
        CompSet.get?_intersection_symm k' k]
      by_cases h1 : S.contains j <;> by_cases h2 : S'.contains j <;>
        simp [h1, h2]
  · exact SMap.values_ext _ _ fun j => by
      have ki := CompSet.keyed_intersection S' k
      rw [CompSet.get?_intersection S'' ki,
        CompSet.get?_intersection S' k,
        CompSet.get?_intersection (S'.intersection S'') k,
        CompSet.contains_intersection k' k'']
      by_cases h1 : S'.contains j <;> by_cases h2 : S''.contains j <;>
        simp [h1, h2]

namespace AccessKind

theorem disjointWith_eq_key (k1 k2 : AccessKind) :
    k1.disjointWith k2 = k1.key.disjoint k2.key := by
  cases k1 <;> cases k2 <;> rfl

end AccessKind

namespace AccessKey

theorem disjoint_symm (x y : AccessKey) : x.disjoint y = y.disjoint x := by
  have hbne : ∀ l r : Nat, (l != r) = (r != l) := by
    intro l r
    unfold bne
    rw [Bool.beq_comm]
  cases x <;> cases y <;> first | rfl | exact hbne _ _

theorem disjoint_self_eq_false (x : AccessKey) : x.disjoint x = false := by
  cases x <;> simp [disjoint]

end AccessKey

namespace Access

theorem conflictsWith_congr_right (a : Access) {b b' : Access}
    (h : b.fp = b'.fp) : a.conflictsWith b = a.conflictsWith b' := by
  unfold conflictsWith
  have hk : b.kind.key = b'.kind.key := congrArg Prod.fst h
  have hl : b.level = b'.level := congrArg Prod.snd h
  rw [AccessKind.disjointWith_eq_key, AccessKind.disjointWith_eq_key, hk, hl]

theorem conflictsWith_congr_left {a a' : Access} (b : Access)
    (h : a.fp = a'.fp) : a.conflictsWith b = a'.conflictsWith b := by
  unfold conflictsWith
  have hk : a.kind.key = a'.kind.key := congrArg Prod.fst h
  have hl : a.level = a'.level := congrArg Prod.snd h
  rw [AccessKind.disjointWith_eq_key, AccessKind.disjointWith_eq_key, hk, hl]

theorem conflictsWith_symm (a b : Access) :
    a.conflictsWith b = b.conflictsWith a := by
  unfold conflictsWith
  rw [AccessKind.disjointWith_eq_key, AccessKind.disjointWith_eq_key,
    AccessKey.disjoint_symm, Bool.or_comm]

/-- Two accesses over the same key conflict unless both are reads. -/
theorem levels_read_of_same_key_no_conflict {a b : Access}
    (hk : a.kind.key = b.kind.key) (h : a.conflictsWith b = false) :
    a.level = .read ∧ b.level = .read := by
  unfold conflictsWith at h
  rw [AccessKind.disjointWith_eq_key, hk,
    AccessKey.disjoint_self_eq_false] at h
  simp at h
  obtain ⟨h1, h2⟩ := h
  cases ha : a.level <;> cases hb : b.level <;> simp_all

end Access

namespace WorldAccess

theorem findConflict_eq_none_iff (a : Access) (l : List Access) :
    findConflict a l = none ↔ ∀ e ∈ l, a.conflictsWith e = false := by
  induction l with
  | nil => simp [findConflict]
  | cons e rest ih =>
    unfold findConflict
    by_cases hc : a.conflictsWith e
    · simp [hc]
    · simp only [Bool.not_eq_true] at hc
      simp [hc, ih]

theorem findConflict_some {a : Access} {l : List Access} {e : Access}
    (h : findConflict a l = some e) :
    e ∈ l ∧ a.conflictsWith e = true := by
  induction l with
  | nil => simp [findConflict] at h
  | cons x rest ih =>
    unfold findConflict at h
    by_cases hc : a.conflictsWith x
    · rw [if_pos hc] at h
      cases h
      exact ⟨List.mem_cons_self _ _, hc⟩
    · rw [if_neg hc] at h
      obtain ⟨hm, hcc⟩ := ih h
      exact ⟨List.mem_cons_of_mem _ hm, hcc⟩

theorem mem_accesses_iff (s : WorldAccess) (acc : Access) :
    acc ∈ s.accesses ↔
      (∃ lv, s.world = some lv ∧ acc = Access.world lv) ∨
      (∃ lv, s.allEntities = some lv ∧ acc = Access.allEntities lv) ∨
      (∃ ca ∈ s.components.values, acc = componentAccessToAccess ca) ∨
      (∃ ra ∈ s.resources.values, acc = resourceAccessToAccess ra) := by
  unfold accesses
  simp only [List.mem_append, List.mem_map]
  constructor
  · rintro (((h | h) | h) | h)
    · cases hw : s.world with
      | none => rw [hw] at h; simp at h
      | some lv =>
        rw [hw] at h
        simp [Option.toList] at h
        exact Or.inl ⟨lv, rfl, h⟩
    · cases hw : s.allEntities with
      | none => rw [hw] at h; simp at h
      | some lv =>
        rw [hw] at h
        simp [Option.toList] at h
        exact Or.inr (Or.inl ⟨lv, rfl, h⟩)
    · obtain ⟨ca, hca, rfl⟩ := h
      exact Or.inr (Or.inr (Or.inl ⟨ca, hca, rfl⟩))
    · obtain ⟨ra, hra, rfl⟩ := h
      exact Or.inr (Or.inr (Or.inr ⟨ra, hra, rfl⟩))
  · rintro (⟨lv, hw, rfl⟩ | ⟨lv, hw, rfl⟩ | ⟨ca, hca, rfl⟩ | ⟨ra, hra, rfl⟩)
    · refine Or.inl (Or.inl (Or.inl ?_))
      rw [hw]
      simp [Option.toList]
    · refine Or.inl (Or.inl (Or.inr ?_))
      rw [hw]
      simp [Option.toList]
    · exact Or.inl (Or.inr ⟨ca, hca, rfl⟩)
    · exact Or.inr ⟨ra, hra, rfl⟩

theorem add_of_error_isSome (s : WorldAccess) (a : Access)
    (h : s.error.isSome = true) : s.add a = s := by
  unfold add
  rw [if_pos h]

theorem add_world_eq (s : WorldAccess) (lv : Level) (he : s.error = none) :
    s.add ⟨.world, lv⟩ =
      { s with
        level := optLevelMax s.level (some lv)
        error := (findConflict ⟨.world, lv⟩ s.accesses).map
          fun e => AccessError.mk ⟨.world, lv⟩ e
        world := some lv } := by
  unfold add
  rw [if_neg (by simp [he])]

theorem add_allEntities_eq (s : WorldAccess) (lv : Level)
    (he : s.error = none) :
    s.add ⟨.allEntities, lv⟩ =
      { s with
        level := optLevelMax s.level (some lv)
        error := (findConflict ⟨.allEntities, lv⟩ s.accesses).map
          fun e => AccessError.mk ⟨.allEntities, lv⟩ e
        allEntities := some lv } := by
  unfold add
  rw [if_neg (by simp [he])]

theorem add_component_eq (s : WorldAccess) (info : Nat) (required : Bool)
    (lv : Level) (he : s.error = none) :
    s.add ⟨.component info required, lv⟩ =
      { s with
        level := optLevelMax s.level (some lv)
        error := (findConflict ⟨.component info required, lv⟩
            s.accesses).map
          fun e => AccessError.mk ⟨.component info required, lv⟩ e
        components := s.components.insert info ⟨info, lv, required⟩ } := by
  unfold add
  rw [if_neg (by simp [he])]

theorem add_resource_eq (s : WorldAccess) (info : Nat) (required : Bool)
    (lv : Level) (he : s.error = none) :
    s.add ⟨.resource info required, lv⟩ =
      { s with
        level := optLevelMax s.level (some lv)
        error := (findConflict ⟨.resource info required, lv⟩
            s.accesses).map
          fun e => AccessError.mk ⟨.resource info required, lv⟩ e
        resources := s.resources.insert info ⟨info, lv, required⟩ } := by
  unfold add
  rw [if_neg (by simp [he])]

theorem keyedState_add (s : WorldAccess) (a : Access)
    (hks : s.KeyedState) : (s.add a).KeyedState := by
  rcases he : s.error with _ | e0
  · obtain ⟨k, lv⟩ := a
    obtain ⟨hc, hr⟩ := hks
    cases k with
    | world => rw [add_world_eq s lv he]; exact ⟨hc, hr⟩
    | allEntities => rw [add_allEntities_eq s lv he]; exact ⟨hc, hr⟩
    | component info required =>
      rw [add_component_eq s info required lv he]
      refine ⟨?_, hr⟩
      intro i ca hca
      rw [SMap.get?_insert] at hca
      by_cases hi : i = info
      · rw [if_pos hi] at hca
        cases hca
        exact hi.symm
      · rw [if_neg hi] at hca
        exact hc i ca hca
    | resource info required =>
      rw [add_resource_eq s info required lv he]
      refine ⟨hc, ?_⟩
      intro i ra hra
      rw [SMap.get?_insert] at hra
      by_cases hi : i = info
      · rw [if_pos hi] at hra
        cases hra
        exact hi.symm
      · rw [if_neg hi] at hra
        exact hr i ra hra
  · rw [add_of_error_isSome s a (by simp [he])]
    exact hks

/-- After an error-free `add`, every recorded access either has the
footprint of the newly added access or was already recorded. -/
theorem add_accesses_sub (s : WorldAccess) (a : Access)
    (he : s.error = none) :
    ∀ acc ∈ (s.add a).accesses, acc.fp = a.fp ∨ acc ∈ s.accesses := by
  obtain ⟨k, lv⟩ := a
  intro acc hacc
  cases k with
  | world =>
    rw [add_world_eq s lv he, mem_accesses_iff] at hacc
    rcases hacc with ⟨lv2, hw, rfl⟩ | ⟨lv2, hw, rfl⟩ | ⟨ca, hca, rfl⟩ |
        ⟨ra, hra, rfl⟩
    · cases hw
      exact Or.inl rfl
    · exact Or.inr ((mem_accesses_iff s _).mpr
        (Or.inr (Or.inl ⟨lv2, hw, rfl⟩)))
    · exact Or.inr ((mem_accesses_iff s _).mpr
        (Or.inr (Or.inr (Or.inl ⟨ca, hca, rfl⟩))))
    · exact Or.inr ((mem_accesses_iff s _).mpr
        (Or.inr (Or.inr (Or.inr ⟨ra, hra, rfl⟩))))
  | allEntities =>
    rw [add_allEntities_eq s lv he, mem_accesses_iff] at hacc
    rcases hacc with ⟨lv2, hw, rfl⟩ | ⟨lv2, hw, rfl⟩ | ⟨ca, hca, rfl⟩ |
        ⟨ra, hra, rfl⟩
    · exact Or.inr ((mem_accesses_iff s _).mpr (Or.inl ⟨lv2, hw, rfl⟩))
    · cases hw
      exact Or.inl rfl
    · exact Or.inr ((mem_accesses_iff s _).mpr
        (Or.inr (Or.inr (Or.inl ⟨ca, hca, rfl⟩))))
    · exact Or.inr ((mem_accesses_iff s _).mpr
        (Or.inr (Or.inr (Or.inr ⟨ra, hra, rfl⟩))))
  | component info required =>
    rw [add_component_eq s info required lv he, mem_accesses_iff] at hacc
    rcases hacc with ⟨lv2, hw, rfl⟩ | ⟨lv2, hw, rfl⟩ | ⟨ca, hca, rfl⟩ |
        ⟨ra, hra, rfl⟩
    · exact Or.inr ((mem_accesses_iff s _).mpr (Or.inl ⟨lv2, hw, rfl⟩))
    · exact Or.inr ((mem_accesses_iff s _).mpr
        (Or.inr (Or.inl ⟨lv2, hw, rfl⟩)))
    · rcases SMap.mem_of_mem_values_insert hca with rfl | hca
      · exact Or.inl rfl
      · exact Or.inr ((mem_accesses_iff s _).mpr
          (Or.inr (Or.inr (Or.inl ⟨ca, hca, rfl⟩))))
    · exact Or.inr ((mem_accesses_iff s _).mpr
        (Or.inr (Or.inr (Or.inr ⟨ra, hra, rfl⟩))))
  | resource info required =>
    rw [add_resource_eq s info required lv he, mem_accesses_iff] at hacc
    rcases hacc with ⟨lv2, hw, rfl⟩ | ⟨lv2, hw, rfl⟩ | ⟨ca, hca, rfl⟩ |
        ⟨ra, hra, rfl⟩
    · exact Or.inr ((mem_accesses_iff s _).mpr (Or.inl ⟨lv2, hw, rfl⟩))
    · exact Or.inr ((mem_accesses_iff s _).mpr
        (Or.inr (Or.inl ⟨lv2, hw, rfl⟩)))
    · exact Or.inr ((mem_accesses_iff s _).mpr
        (Or.inr (Or.inr (Or.inl ⟨ca, hca, rfl⟩))))
    · rcases SMap.mem_of_mem_values_insert hra with rfl | hra
      · exact Or.inl rfl
      · exact Or.inr ((mem_accesses_iff s _).mpr
          (Or.inr (Or.inr (Or.inr ⟨ra, hra, rfl⟩))))

/-- An error-free `add` records the added access itself. -/
theorem self_mem_add_accesses (s : WorldAccess) (a : Access)
    (he : s.error = none) : a ∈ (s.add a).accesses := by
  obtain ⟨k, lv⟩ := a
  cases k with
  | world =>
    rw [add_world_eq s lv he, mem_accesses_iff]
    exact Or.inl ⟨lv, rfl, rfl⟩
  | allEntities =>
    rw [add_allEntities_eq s lv he, mem_accesses_iff]
    exact Or.inr (Or.inl ⟨lv, rfl, rfl⟩)
  | component info required =>
    rw [add_component_eq s info required lv he, mem_accesses_iff]
    exact Or.inr (Or.inr (Or.inl
      ⟨⟨info, lv, required⟩, SMap.values_insert_mem _ _ _, rfl⟩))
  | resource info required =>
    rw [add_resource_eq s info required lv he, mem_accesses_iff]
    exact Or.inr (Or.inr (Or.inr
      ⟨⟨info, lv, required⟩, SMap.values_insert_mem _ _ _, rfl⟩))

/-- An error-free `add` whose conflict scan found nothing preserves the
footprint of every previously recorded access: the only records it can
overwrite share the new access's key, and absent a conflict both the
old and the new level are `Read`. -/
theorem accesses_preserved (s : WorldAccess) (a : Access)
    (he : s.error = none) (hks : s.KeyedState)
    (hnc : findConflict a s.accesses = none) :
    ∀ acc ∈ s.accesses, ∃ acc2 ∈ (s.add a).accesses, acc2.fp = acc.fp := by
  obtain ⟨k, lv⟩ := a
  intro acc hacc
  have hcf : Access.conflictsWith ⟨k, lv⟩ acc = false :=
    (findConflict_eq_none_iff _ _).mp hnc acc hacc
  cases k with
  | world =>
    rw [add_world_eq s lv he]
    rcases (mem_accesses_iff s acc).mp hacc with ⟨lv0, hw, rfl⟩ |
        ⟨lv0, hw, rfl⟩ | ⟨ca, hca, rfl⟩ | ⟨ra, hra, rfl⟩
    · obtain ⟨h1, h2⟩ :=
        Access.levels_read_of_same_key_no_conflict
          (show (Access.mk .world lv).kind.key =
            (Access.world lv0).kind.key from rfl) hcf
      refine ⟨Access.world lv, (mem_accesses_iff _ _).mpr
        (Or.inl ⟨lv, rfl, rfl⟩), ?_⟩
      simp only [Access.fp, Access.world] at *
      rw [h1, h2]
    · exact ⟨_, (mem_accesses_iff _ _).mpr
        (Or.inr (Or.inl ⟨lv0, hw, rfl⟩)), rfl⟩
    · exact ⟨_, (mem_accesses_iff _ _).mpr
        (Or.inr (Or.inr (Or.inl ⟨ca, hca, rfl⟩))), rfl⟩
    · exact ⟨_, (mem_accesses_iff _ _).mpr
        (Or.inr (Or.inr (Or.inr ⟨ra, hra, rfl⟩))), rfl⟩
  | allEntities =>
    rw [add_allEntities_eq s lv he]
    rcases (mem_accesses_iff s acc).mp hacc with ⟨lv0, hw, rfl⟩ |
        ⟨lv0, hw, rfl⟩ | ⟨ca, hca, rfl⟩ | ⟨ra, hra, rfl⟩
    · exact ⟨_, (mem_accesses_iff _ _).mpr (Or.inl ⟨lv0, hw, rfl⟩), rfl⟩
    · obtain ⟨h1, h2⟩ :=
        Access.levels_read_of_same_key_no_conflict
          (show (Access.mk .allEntities lv).kind.key =
            (Access.allEntities lv0).kind.key from rfl) hcf
      refine ⟨Access.allEntities lv, (mem_accesses_iff _ _).mpr
        (Or.inr (Or.inl ⟨lv, rfl, rfl⟩)), ?_⟩
      simp only [Access.fp, Access.allEntities] at *
      rw [h1, h2]
    · exact ⟨_, (mem_accesses_iff _ _).mpr
        (Or.inr (Or.inr (Or.inl ⟨ca, hca, rfl⟩))), rfl⟩
    · exact ⟨_, (mem_accesses_iff _ _).mpr
        (Or.inr (Or.inr (Or.inr ⟨ra, hra, rfl⟩))), rfl⟩
  | component info required =>
    rw [add_component_eq s info required lv he]
    rcases (mem_accesses_iff s acc).mp hacc with ⟨lv0, hw, rfl⟩ |
        ⟨lv0, hw, rfl⟩ | ⟨ca, hca, rfl⟩ | ⟨ra, hra, rfl⟩
    · exact ⟨_, (mem_accesses_iff _ _).mpr (Or.inl ⟨lv0, hw, rfl⟩), rfl⟩
    · exact ⟨_, (mem_accesses_iff _ _).mpr
        (Or.inr (Or.inl ⟨lv0, hw, rfl⟩)), rfl⟩
    · obtain ⟨j, hj⟩ := (SMap.mem_values _ _).mp hca
      have hinfo : ca.info = j := hks.1 j ca hj
      by_cases hji : j = info
      · have hkey : (AccessKind.component info required).key =
            (componentAccessToAccess ca).kind.key := by
          simp [AccessKind.key, componentAccessToAccess, hinfo, hji]
        obtain ⟨h1, h2⟩ :=
          Access.levels_read_of_same_key_no_conflict hkey hcf
        refine ⟨componentAccessToAccess ⟨info, lv, required⟩,
          (mem_accesses_iff _ _).mpr (Or.inr (Or.inr (Or.inl
            ⟨⟨info, lv, required⟩, SMap.values_insert_mem _ _ _, rfl⟩))),
          ?_⟩
        simp only [Access.fp, componentAccessToAccess, AccessKind.key]
          at h1 h2 ⊢
        rw [h1, h2, hinfo, hji]
      · exact ⟨componentAccessToAccess ca, (mem_accesses_iff _ _).mpr
          (Or.inr (Or.inr (Or.inl
            ⟨ca, SMap.mem_values_insert_of_ne _ hj hji, rfl⟩))), rfl⟩
    · exact ⟨_, (mem_accesses_iff _ _).mpr
        (Or.inr (Or.inr (Or.inr ⟨ra, hra, rfl⟩))), rfl⟩
  | resource info required =>
    rw [add_resource_eq s info required lv he]
    rcases (mem_accesses_iff s acc).mp hacc with ⟨lv0, hw, rfl⟩ |
        ⟨lv0, hw, rfl⟩ | ⟨ca, hca, rfl⟩ | ⟨ra, hra, rfl⟩
    · exact ⟨_, (mem_accesses_iff _ _).mpr (Or.inl ⟨lv0, hw, rfl⟩), rfl⟩
    · exact ⟨_, (mem_accesses_iff _ _).mpr
        (Or.inr (Or.inl ⟨lv0, hw, rfl⟩)), rfl⟩
    · exact ⟨_, (mem_accesses_iff _ _).mpr
        (Or.inr (Or.inr (Or.inl ⟨ca, hca, rfl⟩))), rfl⟩
    · obtain ⟨j, hj⟩ := (SMap.mem_values _ _).mp hra
      have hinfo : ra.info = j := hks.2 j ra hj
      by_cases hji : j = info
      · have hkey : (AccessKind.resource info required).key =
            (resourceAccessToAccess ra).kind.key := by
          simp [AccessKind.key, resourceAccessToAccess, hinfo, hji]
        obtain ⟨h1, h2⟩ :=
          Access.levels_read_of_same_key_no_conflict hkey hcf
        refine ⟨resourceAccessToAccess ⟨info, lv, required⟩,
          (mem_accesses_iff _ _).mpr (Or.inr (Or.inr (Or.inr
            ⟨⟨info, lv, required⟩, SMap.values_insert_mem _ _ _, rfl⟩))),
          ?_⟩
        simp only [Access.fp, resourceAccessToAccess, AccessKind.key]
          at h1 h2 ⊢
        rw [h1, h2, hinfo, hji]
      · exact ⟨resourceAccessToAccess ra, (mem_accesses_iff _ _).mpr
          (Or.inr (Or.inr (Or.inr
            ⟨ra, SMap.mem_values_insert_of_ne _ hj hji, rfl⟩))), rfl⟩

theorem add_error (s : WorldAccess) (a : Access) (he : s.error = none) :
    (s.add a).error =
      (findConflict a s.accesses).map fun e => AccessError.mk a e := by
  obtain ⟨k, lv⟩ := a
  cases k with
  | world => rw [add_world_eq s lv he]
  | allEntities => rw [add_allEntities_eq s lv he]
  | component info required => rw [add_component_eq s info required lv he]
  | resource info required => rw [add_resource_eq s info required lv he]

/-- The state invariant of a `WorldAccess` built by a sequence of `add`
calls: the sparse sets are keyed by id; while no error is latched the
recorded footprints are exactly the added footprints and no two added
accesses conflict; once an error is latched some pair of added accesses
conflicts and the recorded pair itself conflicts. -/
theorem buildAll_invariant (as : List Access) :
    (buildAll as).KeyedState ∧
    ((buildAll as).error = none →
      (∀ acc ∈ (buildAll as).accesses, ∃ b ∈ as, b.fp = acc.fp) ∧
      (∀ b ∈ as, ∃ acc ∈ (buildAll as).accesses, acc.fp = b.fp) ∧
      as.Pairwise (fun x y => y.conflictsWith x = false)) ∧
    (∀ e, (buildAll as).error = some e →
      (¬ as.Pairwise (fun x y => y.conflictsWith x = false)) ∧
      e.lhs.conflictsWith e.rhs = true) := by
  induction as using List.reverseRecOn with
  | nil =>
    refine ⟨⟨?_, ?_⟩, ?_, ?_⟩
    · intro i ca h
      simp [buildAll, new, SMap.get?, SMap.empty, List.getD] at h
    · intro i ra h
      simp [buildAll, new, SMap.get?, SMap.empty, List.getD] at h
    · intro _
      refine ⟨?_, ?_, List.Pairwise.nil⟩
      · intro acc hacc
        simp [buildAll, new, accesses, SMap.values, SMap.empty] at hacc
      · intro b hb
        simp at hb
    · intro e he
      simp [buildAll, new] at he
  | append_singleton l a ih =>
    have hfold : buildAll (l ++ [a]) = (buildAll l).add a := by
      unfold buildAll
      rw [List.foldl_append]
      rfl
    obtain ⟨ihK, ihN, ihS⟩ := ih
    rcases he : (buildAll l).error with _ | e0
    · -- no error latched yet
      obtain ⟨hsubL, hsubR, hpw⟩ := ihN he
      rcases hfc : findConflict a (buildAll l).accesses with _ | e
      · -- no conflict found by this add either
        have herr : ((buildAll l).add a).error = none := by
          rw [add_error _ a he, hfc]
          rfl
        rw [hfold]
        refine ⟨keyedState_add _ a ihK, ?_, ?_⟩
        · intro _
          refine ⟨?_, ?_, ?_⟩
          · intro acc hacc
            rcases add_accesses_sub _ a he acc hacc with hfp | hmem
            · exact ⟨a, by simp, hfp.symm⟩
            · obtain ⟨b, hb, hbfp⟩ := hsubL acc hmem
              exact ⟨b, List.mem_append_left _ hb, hbfp⟩
          · intro b hb
            rcases List.mem_append.mp hb with hb | hb
            · obtain ⟨acc, hacc, hfp⟩ := hsubR b hb
              obtain ⟨acc2, hacc2, hfp2⟩ :=
                accesses_preserved _ a he ihK hfc acc hacc
              exact ⟨acc2, hacc2, hfp2.trans hfp⟩
            · rcases List.mem_singleton.mp hb with rfl
              exact ⟨b, self_mem_add_accesses _ b he, rfl⟩
          · rw [List.pairwise_append]
            refine ⟨hpw, List.pairwise_singleton _ _, ?_⟩
            intro x hx b hb
            rcases List.mem_singleton.mp hb with rfl
            obtain ⟨acc, hacc, hfp⟩ := hsubR x hx
            have hnc := (findConflict_eq_none_iff _ _).mp hfc acc hacc
            rw [← Access.conflictsWith_congr_right b hfp]
            exact hnc
        · intro e hsome
          rw [herr] at hsome
          cases hsome
      · -- this add latches the first error
        have herr : ((buildAll l).add a).error = some ⟨a, e⟩ := by
          rw [add_error _ a he, hfc]
          rfl
        obtain ⟨hemem, hecf⟩ := findConflict_some hfc
        rw [hfold]
        refine ⟨keyedState_add _ a ihK, ?_, ?_⟩
        · intro hnone
          rw [herr] at hnone
          cases hnone
        · intro e' hsome
          rw [herr] at hsome
          cases hsome
          refine ⟨?_, hecf⟩
          intro hp
          obtain ⟨b, hb, hbfp⟩ := hsubL e hemem
          have hcb : a.conflictsWith b = true := by
            rw [Access.conflictsWith_congr_right a hbfp]
            exact hecf
          have := (List.pairwise_append.mp hp).2.2 b hb a
            (List.mem_singleton_self a)
          rw [this] at hcb
          cases hcb
    · -- an error is already latched: add is a no-op
      have hadd : (buildAll l).add a = buildAll l :=
        add_of_error_isSome _ a (by simp [he])
      rw [hfold, hadd]
      refine ⟨ihK, ?_, ?_⟩
      · intro hnone
        rw [he] at hnone
        cases hnone
      · intro e hsome
        rw [he] at hsome
        cases hsome
        obtain ⟨hnp, hc⟩ := ihS e0 he
        refine ⟨?_, hc⟩
        intro hp
        exact hnp ((List.pairwise_append.mp hp).1)

end WorldAccess

/-- **C1.** Building a query's or system's access set by a sequence of
`add` calls reports an `AccessError` iff two of the declared accesses
conflict (`conflicts_with`: at least one of the pair is a `Write` and
their kinds are not disjoint); once an error is latched every further
`add` is a no-op on the access set; and the recorded error is a pair of
genuinely conflicting accesses (the first conflict the scan
encountered). -/
theorem C1_access_error_iff_declared_conflict (as : List Access) :
    ((WorldAccess.buildAll as).hasError = true ↔
      ∃ i j, ∃ hi : i < as.length, ∃ hj : j < as.length, i < j ∧
        (as.get ⟨j, hj⟩).conflictsWith (as.get ⟨i, hi⟩) = true) ∧
    (∀ a, (WorldAccess.buildAll as).error.isSome = true →
      (WorldAccess.buildAll as).add a = WorldAccess.buildAll as) ∧
    (∀ e, (WorldAccess.buildAll as).error = some e →
      e.lhs.conflictsWith e.rhs = true) := by
  obtain ⟨hK, hN, hS⟩ := WorldAccess.buildAll_invariant as
  refine ⟨⟨?_, ?_⟩, ?_, ?_⟩
  · intro herr
    rcases he : (WorldAccess.buildAll as).error with _ | e
    · rw [WorldAccess.hasError, he] at herr
      cases herr
    · obtain ⟨hnp, _⟩ := hS e he
      rw [List.pairwise_iff_getElem] at hnp
      push_neg at hnp
      obtain ⟨i, j, hi, hj, hij, hR⟩ := hnp
      refine ⟨i, j, hi, hj, hij, ?_⟩
      simp only [List.get_eq_getElem]
      simpa using hR
  · rintro ⟨i, j, hi, hj, hij, hc⟩
    by_contra hne
    have he : (WorldAccess.buildAll as).error = none := by
      rcases h : (WorldAccess.buildAll as).error with _ | e
      · rfl
      · rw [WorldAccess.hasError, h] at hne
        simp at hne
    obtain ⟨_, _, hpw⟩ := hN he
    rw [List.pairwise_iff_getElem] at hpw
    have := hpw i j hi hj hij
    simp only [List.get_eq_getElem] at hc
    rw [hc] at this
    cases this
  · intro a herr
    exact WorldAccess.add_of_error_isSome _ a herr
  · intro e he
    exact (hS e he).2

/-- Witness for C1: adding `&mut Component(0)` then `&Component(0)`
latches an error (the pair at indices 0 < 1 conflicts), and a further
`add` on the latched set is a no-op. -/
theorem C1_access_error_iff_declared_conflict_witness :
    (WorldAccess.buildAll
        [Access.requiredComponent 0 .write,
          Access.requiredComponent 0 .read]).hasError = true ∧
      (WorldAccess.buildAll
          [Access.requiredComponent 0 .write,
            Access.requiredComponent 0 .read]).add (Access.world .write) =
        WorldAccess.buildAll
          [Access.requiredComponent 0 .write,
            Access.requiredComponent 0 .read] :=
  ⟨(C1_access_error_iff_declared_conflict _).1.mpr
      ⟨0, 1, by decide, by decide, by decide, by decide⟩,
    (C1_access_error_iff_declared_conflict _).2.1 _ (by decide)⟩

/-- **C2 counterexample.** At component info id 0 and resource info id 0,
`AccessKind::disjoint_with` falls through to the wildcard arm and
returns `false`, and the corresponding accesses conflict as soon as one
of them is a `Write` — refuting "a component access never conflicts
with a resource access even when one of them is a Write". -/
theorem C2_component_resource_not_disjoint_counterexample :
    (AccessKind.component 0 true).disjointWith (AccessKind.resource 0 true)
        = false ∧
      (Access.requiredComponent 0 .write).conflictsWith
        (Access.requiredResource 0 .read) = true := by
  decide

/-- **C2 (amended).** A component access and a resource access are
*never* disjoint (the `Component`/`Resource` pair falls through to the
wildcard `false` arm of `disjoint_with`), so they conflict exactly when
at least one of the two is a `Write`. -/
theorem C2_component_resource_conflict (x y : Nat) (rx ry : Bool)
    (lx ly : Level) :
    (AccessKind.component x rx).disjointWith (AccessKind.resource y ry)
        = false ∧
      (AccessKind.resource y ry).disjointWith (AccessKind.component x rx)
        = false ∧
      (Access.mk (.component x rx) lx).conflictsWith
          ⟨.resource y ry, ly⟩ =
        (lx == .write || ly == .write) := by
  refine ⟨rfl, rfl, ?_⟩
  cases lx <;> cases ly <;> rfl

/-- **C3.** Evaluation of the query-data access declarations at a fresh
builder: `EntityRef` declares `(AllEntities, Read)` as the claim says,
but `EntityMut` also declares `(AllEntities, Read)` — not `Write` —
although its own safety comment says it mutably borrows all components.
Consequently a pair of `EntityMut` declarations latches no error. -/
theorem C3_entitymut_declares_read_not_write :
    (entityRefAccess WorldAccess.new).allEntities = some Level.read ∧
      (entityMutAccess WorldAccess.new).allEntities = some Level.read ∧
      (entityMutAccess WorldAccess.new).allEntities ≠ some Level.write ∧
      (entityMutAccess (entityMutAccess WorldAccess.new)).error = none := by
  decide

/-- **C4.** The spec's hello-world scenario, one table with two rows
(entities `100` at `TableRow 0` and `101` at `TableRow 1`), iterated by
the embedded `QueryIter::next` from the initial iterator state
(`tables = [0]`, `len = 2`, `table = None`, `row = 0`): the iterator
yields the row-0 entity twice and never visits row 1, because `next`
never advances `self.row`.  This refutes "within each table, visits
rows in ascending TableRow order, yielding each matched entity exactly
once" and the `[\"Alexandra\", \"Hiro\"]` scenario. -/
theorem C4_query_iter_never_advances_row :
    qnext [⟨[some 100, some 101]⟩] ⟨[0], 2, none, 0⟩ =
        some (100, ⟨[], 1, some 0, 0⟩) ∧
      qnext [⟨[some 100, some 101]⟩] ⟨[], 1, some 0, 0⟩ =
        some (100, ⟨[], 0, some 0, 0⟩) ∧
      qnext [⟨[some 100, some 101]⟩] ⟨[], 0, some 0, 0⟩ = none := by
  refine ⟨?_, ?_, ?_⟩ <;> (rw [qnext.eq_def]; rfl)

/-- **C5.** Evaluation of the allocator at the spec's reuse scenario:
`alloc` (yielding id `(0, 1)`), `free` it, `alloc` again.  The second
`alloc` reuses slot 0 and returns id `(0, 2)`; the stored slot version
equals the id's version (both 2), yet `contains` returns `false` (and
`set` refuses the address write), because `free` cleared the slot's
`alive` flag and no reuse path ever sets it back.  This refutes the
claimed equivalence "alive iff `slot[id.index].version == id.version`"
on the side the claim singles out: an id freshly returned by `alloc`
after a free reused its slot is not alive. -/
theorem C5_reused_slot_version_matches_but_dead :
    ((Entities.new.alloc).1 = (⟨0, 1⟩ : EntityId)) ∧
      ((((Entities.new.alloc).2.free ⟨0, 1⟩).2.alloc).1 =
        (⟨0, 2⟩ : EntityId)) ∧
      (((((Entities.new.alloc).2.free ⟨0, 1⟩).2.alloc).2.slots.get? 0).map
          EntitySlot.version = some 2) ∧
      ((((Entities.new.alloc).2.free ⟨0, 1⟩).2.alloc).2.contains ⟨0, 2⟩
        = false) ∧
      (((((Entities.new.alloc).2.free ⟨0, 1⟩).2.alloc).2.set ⟨0, 2⟩
          ⟨0, 0⟩).1 = none) := by
  refine ⟨rfl, rfl, rfl, rfl, rfl⟩

/-- **C9.** A zero-sized-type column is created with capacity
`usize::MAX`, a dangling pointer and no allocation, and every
subsequent sequence of `grow` and `write` calls (any amounts, any row
indices) leaves the column state — capacity, pointer and allocation
count — exactly as created. -/
theorem C9_zst_column_never_allocates (ops : List ColOp) :
    (Column.new 0).capacity = usizeMax ∧
      (Column.new 0).ptr = danglingPtr ∧
      (Column.new 0).allocs = 0 ∧
      applyColOps (Column.new 0) ops = Column.new 0 := by
  refine ⟨rfl, rfl, rfl, ?_⟩
  have hg : ∀ n, (Column.new 0).grow n = Column.new 0 := by
    intro n
    unfold Column.grow
    rw [if_pos]
    rfl
  have hw : ∀ r, (Column.new 0).write r = Column.new 0 := by
    intro r
    unfold Column.write
    by_cases h : r < (Column.new 0).capacity
    · rw [if_pos h]
    · rw [if_neg h, hg]
  induction ops with
  | nil => rfl
  | cons op t ih =>
    cases op with
    | growOp n => simpa [applyColOps, hg] using ih
    | writeOp r => simpa [applyColOps, hw] using ih

/-- **C7.** While a shared `Res` borrow of a resource is alive (its box
has at least one reader and no writer), `Resources::get_mut` for the
same resource returns `Err(ResourceError::AlreadyBorrowed)` — totally,
with no panic — and no mutable borrow is granted (the only state-
updating path of `get_mut` is its `Ok` branch, so the box including the
existing borrow count is untouched); a further shared `Res` borrow of
the same box still succeeds, returning the value and incrementing the
reader count. -/
theorem C7_resmut_denied_while_res_alive (rs : Resources)
    (tid idx : Nat) (box : ResourceBox)
    (hreg : rs.registry.lookup tid = some idx)
    (hbox : rs.resources.get? idx = some box)
    (halive : 1 ≤ box.readers) (hnw : box.writing = false) :
    rs.getMut tid = .error (.alreadyBorrowed tid) ∧
      rs.get tid = .ok (box.value,
        { rs with resources :=
            rs.resources.insert idx { box with readers := box.readers + 1 } }) ∧
      (SMap.get?
          (rs.resources.insert idx { box with readers := box.readers + 1 })
          idx = some { box with readers := box.readers + 1 }) := by
  have hmut : box.tryBorrowMut = none := by
    unfold ResourceBox.tryBorrowMut
    rw [if_pos]
    rw [hnw]
    simp
    omega
  have hbor : box.tryBorrow = some { box with readers := box.readers + 1 } := by
    unfold ResourceBox.tryBorrow
    rw [if_neg]
    rw [hnw]
    simp
  refine ⟨?_, ?_, ?_⟩
  · unfold Resources.getMut Resources.infoOf
    rw [hreg]
    simp only []
    rw [hbox]
    simp only []
    unfold ResourceBox.getMut
    rw [hmut]
  · unfold Resources.get Resources.infoOf
    rw [hreg]
    simp only []
    rw [hbox]
    simp only []
    unfold ResourceBox.get
    rw [hbor]
  · rw [SMap.get?_insert]
    simp

/-- Witness for C7 at a concrete store: type id 7 registered at index
0, whose box holds value 42 with one live reader. -/
theorem C7_resmut_denied_while_res_alive_witness :
    ((⟨[(7, 0)], [some ⟨42, 1, false⟩]⟩ : Resources).registry.lookup 7
        = some 0) ∧
      (SMap.get? (⟨[(7, 0)], [some ⟨42, 1, false⟩]⟩ : Resources).resources 0
        = some ⟨42, 1, false⟩) ∧
      (Resources.getMut ⟨[(7, 0)], [some ⟨42, 1, false⟩]⟩ 7 =
        .error (.alreadyBorrowed 7)) :=
  ⟨by decide, by decide,
    (C7_resmut_denied_while_res_alive ⟨[(7, 0)], [some ⟨42, 1, false⟩]⟩ 7 0
      ⟨42, 1, false⟩ (by decide) (by decide) (by decide) (by decide)).1⟩

theorem smap_get?_map {α β : Type} (f : α → β) (l : SMap α) (c : Nat) :
    SMap.get? (l.map (Option.map f)) c = (SMap.get? l c).map f := by
  rw [SMap.get?_eq_getElem?, SMap.get?_eq_getElem?, List.getElem?_map]
  rcases l[c]? with _ | o <;> rfl

theorem isSome_get?_of_map_isSome {α β : Type} {l1 : List (Option α)}
    {l2 : List (Option β)}
    (h : l1.map Option.isSome = l2.map Option.isSome) (c : Nat) :
    (SMap.get? l1 c).isSome = (SMap.get? l2 c).isSome := by
  have h2 := congrArg (fun l => l[c]?) h
  simp only [List.getElem?_map] at h2
  rw [SMap.get?_eq_getElem?, SMap.get?_eq_getElem?]
  rcases h3 : l1[c]? with _ | o1 <;> rcases h4 : l2[c]? with _ | o2 <;>
    rw [h3, h4] at h2 <;> simp at h2 ⊢ <;> simp [h2]

theorem findTypeSet_some {l : List (CompSet × Nat)} {h : CompSet}
    {i : Nat} (hf : findTypeSet l h = some i) :
    ∃ k, (k, i) ∈ l ∧ CompSet.eqv k h := by
  induction l with
  | nil => simp [findTypeSet] at hf
  | cons p rest ih =>
    obtain ⟨k0, i0⟩ := p
    unfold findTypeSet at hf
    by_cases he : CompSet.eqv k0 h
    · rw [if_pos he] at hf
      cases hf
      exact ⟨k0, List.mem_cons_self _ _, he⟩
    · rw [if_neg he] at hf
      obtain ⟨k, hmem, hk⟩ := ih hf
      exact ⟨k, List.mem_cons_of_mem _ hmem, hk⟩

namespace OTable

theorem new_columns_get? (h : CompSet) (c : Nat) :
    (OTable.new h).columns.get? c =
      (h.inner.get? c).map (fun _ => OColumn.new) := by
  unfold OTable.new
  exact smap_get?_map _ _ c

theorem cell_congr {t1 t2 : OTable} (h : t1.columns = t2.columns)
    (c e : Nat) : t1.cell c e = t2.cell c e := by
  unfold cell
  rw [h]

end OTable

theorem otableWFb_split {t : OTable} (h : OTableWFb t = true) :
    CompSet.WF t.header = true ∧
      ∀ c, (t.columns.get? c).isSome = (t.header.inner.get? c).isSome := by
  unfold OTableWFb at h
  simp only [Bool.and_eq_true, beq_iff_eq] at h
  exact ⟨h.1, fun c => isSome_get?_of_map_isSome h.2 c⟩

theorem moveStep_old (e : Nat) (st : OTable × OTable × List MoveEv)
    (c : Nat) :
    (moveStep e st c).1.columns = st.1.columns ∧
      (moveStep e st c).1.header = st.1.header := by
  unfold moveStep
  split <;> exact ⟨rfl, rfl⟩

theorem moveStep_new_isSome (e : Nat) (st : OTable × OTable × List MoveEv)
    (c c' : Nat) :
    ((moveStep e st c).2.1.columns.get? c').isSome =
      (st.2.1.columns.get? c').isSome := by
  unfold moveStep
  split
  · rfl
  · next col heq =>
    simp only []
    rw [SMap.get?_insert]
    by_cases h : c' = c
    · rw [if_pos h, h, heq]
      rfl
    · rw [if_neg h]

theorem moveStep_new_header (e : Nat) (st : OTable × OTable × List MoveEv)
    (c : Nat) : (moveStep e st c).2.1.header = st.2.1.header := by
  unfold moveStep
  split <;> rfl

theorem moveStep_new_get?_ne (e : Nat) (st : OTable × OTable × List MoveEv)
    {c c' : Nat} (h : c' ≠ c) :
    (moveStep e st c).2.1.columns.get? c' = st.2.1.columns.get? c' := by
  unfold moveStep
  split
  · rfl
  · simp only []
    rw [SMap.get?_insert, if_neg h]

theorem moveLoop_old_columns (e : Nat) (cs : List Nat)
    (st : OTable × OTable × List MoveEv) :
    (cs.foldl (moveStep e) st).1.columns = st.1.columns := by
  induction cs generalizing st with
  | nil => rfl
  | cons c rest ih =>
    rw [List.foldl_cons, ih]
    exact (moveStep_old e st c).1

theorem moveLoop_new_get?_of_not_mem (e : Nat) (cs : List Nat)
    (st : OTable × OTable × List MoveEv) {c : Nat} (hc : c ∉ cs) :
    (cs.foldl (moveStep e) st).2.1.columns.get? c =
      st.2.1.columns.get? c := by
  induction cs generalizing st with
  | nil => rfl
  | cons c0 rest ih =>
    rw [List.foldl_cons,
      ih (moveStep e st c0) (fun hm => hc (List.mem_cons_of_mem _ hm)),
      moveStep_new_get?_ne e st
        (fun hh => hc (by rw [hh]; exact List.mem_cons_self _ _))]

theorem moveLoop_events (e : Nat) (cs : List Nat) (ot nt : OTable)
    (evs0 : List MoveEv)
    (hc : ∀ c ∈ cs, (nt.columns.get? c).isSome = true) :
    (cs.foldl (moveStep e) (ot, nt, evs0)).2.2 =
      evs0 ++ cs.map MoveEv.copyEv := by
  induction cs generalizing ot nt evs0 with
  | nil => simp
  | cons c0 rest ih =>
    rw [List.foldl_cons]
    have hsome : (nt.columns.get? c0).isSome = true :=
      hc c0 (List.mem_cons_self _ _)
    rcases hcol : nt.columns.get? c0 with _ | col
    · rw [hcol] at hsome
      cases hsome
    · have hstep : moveStep e (ot, nt, evs0) c0 =
          ({ ot with entities := ot.entities.remove e },
            { nt with
              entities := (nt.entities.insert e e).insert e e
              columns := nt.columns.insert c0 (col.write e (ot.cell c0 e)) },
            evs0 ++ [MoveEv.copyEv c0]) := by
        unfold moveStep
        simp only [hcol]
      rw [hstep]
      rw [ih _ _ _ ?_]
      · simp
      · intro c hcm
        rw [SMap.get?_insert]
        by_cases hcc : c = c0
        · rw [if_pos hcc]
          rfl
        · rw [if_neg hcc]
          exact hc c (List.mem_cons_of_mem _ hcm)

theorem moveLoop_cell (e : Nat) (cs : List Nat) (ot nt : OTable)
    (evs0 : List MoveEv) (hnd : cs.Nodup)
    (hc : ∀ c ∈ cs, (nt.columns.get? c).isSome = true) :
    ∀ c ∈ cs, (cs.foldl (moveStep e) (ot, nt, evs0)).2.1.cell c e =
      ot.cell c e := by
  induction cs generalizing ot nt evs0 with
  | nil => intro c hcm; simp at hcm
  | cons c0 rest ih =>
    intro c hcm
    have hsome : (nt.columns.get? c0).isSome = true :=
      hc c0 (List.mem_cons_self _ _)
    rcases hcol : nt.columns.get? c0 with _ | col
    · rw [hcol] at hsome
      cases hsome
    · have hstep : moveStep e (ot, nt, evs0) c0 =
          ({ ot with entities := ot.entities.remove e },
            { nt with
              entities := (nt.entities.insert e e).insert e e
              columns := nt.columns.insert c0 (col.write e (ot.cell c0 e)) },
            evs0 ++ [MoveEv.copyEv c0]) := by
        unfold moveStep
        simp only [hcol]
      rw [List.foldl_cons, hstep]
      rcases List.mem_cons.mp hcm with rfl | hcm2
      · have hnot : c ∉ rest := (List.nodup_cons.mp hnd).1
        unfold OTable.cell
        rw [moveLoop_new_get?_of_not_mem e rest _ hnot]
        simp only []
        rw [SMap.get?_insert, if_pos rfl]
        simp [OColumn.write]
      · have hres := ih { ot with entities := ot.entities.remove e }
          { nt with
            entities := (nt.entities.insert e e).insert e e
            columns := nt.columns.insert c0 (col.write e (ot.cell c0 e)) }
          (evs0 ++ [MoveEv.copyEv c0]) (List.nodup_cons.mp hnd).2 ?_ c hcm2
        · rw [hres]
          unfold OTable.cell
          rfl
        · intro c2 hc2
          simp only []
          rw [SMap.get?_insert]
          by_cases hcc : c2 = c0
          · rw [if_pos hcc]
            rfl
          · rw [if_neg hcc]
            exact hc c2 (List.mem_cons_of_mem _ hc2)

/-- The move-and-drop phase of `realloc`: for every component in the
intersection, the target table's cell now equals the source cell, the
event log holds exactly one byte-copy of it, and no `drop_fn` call. -/
theorem realloc_props (e : Nat) (oldT newT newT2 : OTable)
    (newHeader : CompSet) (dropFlag : Bool) (init : OTable → OTable)
    (hkOld : CompSet.Keyed oldT.header) (hkNew : CompSet.Keyed newHeader)
    (hcols : ∀ c ∈ (oldT.header.intersection newHeader).inner.values,
      (newT.columns.get? c).isSome = true)
    (hinit : ∀ t c, oldT.header.contains c = true →
      (init t).columns.get? c = t.columns.get? c)
    (hn2 : newT2 = if oldT.header.len < newHeader.len
      then init ((oldT.header.intersection newHeader).inner.values.foldl
        (moveStep e) (oldT, newT, [])).2.1
      else ((oldT.header.intersection newHeader).inner.values.foldl
        (moveStep e) (oldT, newT, [])).2.1)
    (evs2 : List MoveEv)
    (hevs : evs2 = if dropFlag
      then ((oldT.header.intersection newHeader).inner.values.foldl
          (moveStep e) (oldT, newT, [])).2.2 ++
        (oldT.header.difference newHeader).inner.values.map MoveEv.dropEv
      else ((oldT.header.intersection newHeader).inner.values.foldl
        (moveStep e) (oldT, newT, [])).2.2) :
    ∀ c, oldT.header.contains c = true → newHeader.contains c = true →
      newT2.cell c e = oldT.cell c e ∧
      evs2.count (MoveEv.copyEv c) = 1 ∧
      evs2.count (MoveEv.dropEv c) = 0 := by
  intro c hco hcn
  have hki := CompSet.keyed_intersection newHeader hkOld
  have hmem : c ∈ (oldT.header.intersection newHeader).inner.values := by
    refine (CompSet.mem_values_of_keyed hki c).mpr ?_
    rw [CompSet.get?_intersection_symm hkOld hkNew, if_pos ⟨hco, hcn⟩]
  have hnd : (oldT.header.intersection newHeader).inner.values.Nodup :=
    CompSet.values_nodup_of_keyed hki
  have hcell : ((oldT.header.intersection newHeader).inner.values.foldl
      (moveStep e) (oldT, newT, [])).2.1.cell c e = oldT.cell c e :=
    moveLoop_cell e _ oldT newT [] hnd hcols c hmem
  have hevents : ((oldT.header.intersection newHeader).inner.values.foldl
      (moveStep e) (oldT, newT, [])).2.2 =
      (oldT.header.intersection newHeader).inner.values.map MoveEv.copyEv :=
    moveLoop_events e _ oldT newT [] hcols
  have hcopyinj : Function.Injective MoveEv.copyEv := by
    intro a b hab
    cases hab
    rfl
  have hdropinj : Function.Injective MoveEv.dropEv := by
    intro a b hab
    cases hab
    rfl
  refine ⟨?_, ?_, ?_⟩
  · rw [hn2]
    split
    · unfold OTable.cell
      rw [hinit _ c hco]
      exact hcell
    · exact hcell
  · have hcnt1 : ((oldT.header.intersection newHeader).inner.values.map
        MoveEv.copyEv).count (MoveEv.copyEv c) = 1 := by
      rw [List.count_map_of_injective _ _ hcopyinj]
      exact List.count_eq_one_of_mem hnd hmem
    have hcnt0 : ((oldT.header.difference newHeader).inner.values.map
        MoveEv.dropEv).count (MoveEv.copyEv c) = 0 := by
      rw [List.count_eq_zero]
      intro hmm
      obtain ⟨d, _, hd⟩ := List.mem_map.mp hmm
      cases hd
    rw [hevs]
    split
    · rw [List.count_append, hevents, hcnt1, hcnt0]
    · rw [hevents, hcnt1]
  · have hdnt1 : ((oldT.header.intersection newHeader).inner.values.map
        MoveEv.copyEv).count (MoveEv.dropEv c) = 0 := by
      rw [List.count_eq_zero]
      intro hmm
      obtain ⟨d, _, hd⟩ := List.mem_map.mp hmm
      cases hd
    have hdnt0 : ((oldT.header.difference newHeader).inner.values.map
        MoveEv.dropEv).count (MoveEv.dropEv c) = 0 := by
      rw [List.count_map_of_injective _ _ hdropinj, List.count_eq_zero]
      exact CompSet.not_mem_difference hkOld hkNew hmem
    rw [hevs]
    split
    · rw [List.count_append, hevents, hdnt1, hdnt0]
    · rw [hevents, hdnt1]

/-- **C6.** For a well-formed table registry, an entity present in its
(old) table, and a genuinely different target component set,
`Components::realloc` succeeds and, for every component in
`old_set ∩ new_set`: the bytes readable in the new table's column at
the entity afterwards equal the value stored before the move, the move
performed exactly one byte-copy of that component, and its `drop_fn`
was never invoked (`init` is constrained only by its documented safety
contract: it does not touch columns of components the old set already
had). -/
theorem C6_realloc_preserves_moved_components (cs : OComponents)
    (e oldId : Nat) (newHeader : CompSet) (dropFlag : Bool)
    (init : OTable → OTable) (oldT : OTable)
    (hold : cs.tables.get? oldId = some oldT)
    (hwf : OComponentsWFb cs = true)
    (hnew : CompSet.WF newHeader = true)
    (hcont : oldT.containsEntity e = true)
    (hneqv : ¬ CompSet.eqv oldT.header newHeader)
    (hinit : ∀ t c, oldT.header.contains c = true →
      (init t).columns.get? c = t.columns.get? c) :
    ∃ newId cs2 evs,
      cs.realloc e oldId newHeader dropFlag init = (some newId, cs2, evs) ∧
      newId ≠ oldId ∧
      ∀ c, oldT.header.contains c = true → newHeader.contains c = true →
        ((cs2.tables.get? newId).bind fun t => t.cell c e) = oldT.cell c e ∧
        evs.count (MoveEv.copyEv c) = 1 ∧
        evs.count (MoveEv.dropEv c) = 0 := by
  have hkNew := CompSet.wf_keyed hnew
  have hwf2 := hwf
  unfold OComponentsWFb at hwf2
  rw [Bool.and_eq_true, List.all_eq_true, List.all_eq_true] at hwf2
  obtain ⟨hwfT, hwfM⟩ := hwf2
  have holdmem : oldT ∈ cs.tables :=
    List.getElem?_mem (by rw [← List.get?_eq_getElem?]; exact hold)
  obtain ⟨holdWF, holdCols⟩ := otableWFb_split (hwfT oldT holdmem)
  have hkOld := CompSet.wf_keyed holdWF
  have hlenOld : oldId < cs.tables.length := by
    by_contra hge
    rw [List.get?_eq_getElem?,
      List.getElem?_eq_none (Nat.le_of_not_lt hge)] at hold
    cases hold
  have hcond : ¬(¬ oldT.containsEntity e = true ∨
      CompSet.eqv oldT.header newHeader) :=
    fun hor => hor.elim (fun h1 => h1 hcont) hneqv
  have hinter_contains : ∀ c ∈ (oldT.header.intersection
      newHeader).inner.values,
      oldT.header.contains c = true ∧ newHeader.contains c = true := by
    intro c hc
    have := (CompSet.mem_values_of_keyed
      (CompSet.keyed_intersection newHeader hkOld) c).mp hc
    rw [CompSet.get?_intersection_symm hkOld hkNew] at this
    by_cases hb : oldT.header.contains c = true ∧ newHeader.contains c = true
    · exact hb
    · rw [if_neg hb] at this
      cases this
  rcases hfound : findTypeSet cs.typeSets newHeader with _ | i
  · -- no canonical table yet: a fresh one is appended
    have happold : (cs.tables ++ [OTable.new newHeader]).get? oldId =
        some oldT := by
      rw [List.get?_eq_getElem?, List.getElem?_append, if_pos hlenOld,
        ← List.get?_eq_getElem?]
      exact hold
    have happnew : (cs.tables ++ [OTable.new newHeader]).get?
        cs.tables.length = some (OTable.new newHeader) := by
      rw [List.get?_eq_getElem?, List.getElem?_concat_length]
    have hne : ¬(oldId = cs.tables.length) := Nat.ne_of_lt hlenOld
    have hre : cs.realloc e oldId newHeader dropFlag init =
        (some cs.tables.length,
          ⟨cs.typeSets ++ [(newHeader, cs.tables.length)],
            (((cs.tables ++ [OTable.new newHeader]).set oldId
              ((oldT.header.intersection newHeader).inner.values.foldl
                (moveStep e) (oldT, OTable.new newHeader, [])).1).set
              cs.tables.length
              (if oldT.header.len < newHeader.len
                then init ((oldT.header.intersection
                  newHeader).inner.values.foldl (moveStep e)
                  (oldT, OTable.new newHeader, [])).2.1
                else ((oldT.header.intersection
                  newHeader).inner.values.foldl (moveStep e)
                  (oldT, OTable.new newHeader, [])).2.1))⟩,
          if dropFlag
            then ((oldT.header.intersection newHeader).inner.values.foldl
                (moveStep e) (oldT, OTable.new newHeader, [])).2.2 ++
              (oldT.header.difference newHeader).inner.values.map
                MoveEv.dropEv
            else ((oldT.header.intersection newHeader).inner.values.foldl
              (moveStep e) (oldT, OTable.new newHeader, [])).2.2) := by
      unfold OComponents.realloc
      rw [hold]
      dsimp only
      rw [if_neg hcond, hfound]
      dsimp only [Option.getD]
      rw [if_neg hne]
      rw [happold, happnew]
    refine ⟨cs.tables.length, _, _, hre, fun hh => hne hh.symm, ?_⟩
    intro c hco hcn
    have hcolsNew : ∀ c2 ∈ (oldT.header.intersection
        newHeader).inner.values,
        ((OTable.new newHeader).columns.get? c2).isSome = true := by
      intro c2 hc2
      rw [OTable.new_columns_get?]
      have := (hinter_contains c2 hc2).2
      unfold CompSet.contains SMap.containsKey at this
      rcases hh : newHeader.inner.get? c2 with _ | x
      · rw [hh] at this
        cases this
      · rfl
    have hget2 : ((((cs.tables ++ [OTable.new newHeader]).set oldId
        ((oldT.header.intersection newHeader).inner.values.foldl
          (moveStep e) (oldT, OTable.new newHeader, [])).1).set
        cs.tables.length
        (if oldT.header.len < newHeader.len
          then init ((oldT.header.intersection
            newHeader).inner.values.foldl (moveStep e)
            (oldT, OTable.new newHeader, [])).2.1
          else ((oldT.header.intersection
            newHeader).inner.values.foldl (moveStep e)
            (oldT, OTable.new newHeader, [])).2.1)).get?
        cs.tables.length) =
        some (if oldT.header.len < newHeader.len
          then init ((oldT.header.intersection
            newHeader).inner.values.foldl (moveStep e)
            (oldT, OTable.new newHeader, [])).2.1
          else ((oldT.header.intersection
            newHeader).inner.values.foldl (moveStep e)
            (oldT, OTable.new newHeader, [])).2.1) := by
      rw [List.get?_eq_getElem?, List.getElem?_set, if_pos rfl, if_pos]
      simp [hlenOld]
    obtain ⟨h1, h2, h3⟩ := realloc_props e oldT (OTable.new newHeader) _
      newHeader dropFlag init hkOld hkNew hcolsNew hinit rfl _ rfl c hco hcn
    refine ⟨?_, h2, h3⟩
    rw [hget2]
    simpa using h1
  · -- the canonical table exists
    obtain ⟨k, hkmem, hkeq⟩ := findTypeSet_some hfound
    have hmk := hwfM (k, i) hkmem
    rcases hti : cs.tables.get? i with _ | ti
    · rw [hti] at hmk
      cases hmk
    · rw [hti] at hmk
      have heqv : CompSet.eqv ti.header newHeader := by
        have := of_decide_eq_true hmk
        exact this.trans hkeq
      have htimem : ti ∈ cs.tables :=
        List.getElem?_mem (by rw [← List.get?_eq_getElem?]; exact hti)
      obtain ⟨htiWF, htiCols⟩ := otableWFb_split (hwfT ti htimem)
      have hkTi := CompSet.wf_keyed htiWF
      have hne : ¬(oldId = i) := by
        intro hh
        rw [← hh, hold] at hti
        cases hti
        exact hneqv heqv
      have hlenI : i < cs.tables.length := by
        by_contra hge
        rw [List.get?_eq_getElem?,
          List.getElem?_eq_none (Nat.le_of_not_lt hge)] at hti
        cases hti
      have hre : cs.realloc e oldId newHeader dropFlag init =
          (some i,
            ⟨cs.typeSets,
              ((cs.tables.set oldId
                ((oldT.header.intersection newHeader).inner.values.foldl
                  (moveStep e) (oldT, ti, [])).1).set i
                (if oldT.header.len < newHeader.len
                  then init ((oldT.header.intersection
                    newHeader).inner.values.foldl (moveStep e)
                    (oldT, ti, [])).2.1
                  else ((oldT.header.intersection
                    newHeader).inner.values.foldl (moveStep e)
                    (oldT, ti, [])).2.1))⟩,
            if dropFlag
              then ((oldT.header.intersection newHeader).inner.values.foldl
                  (moveStep e) (oldT, ti, [])).2.2 ++
                (oldT.header.difference newHeader).inner.values.map
                  MoveEv.dropEv
              else ((oldT.header.intersection
                newHeader).inner.values.foldl (moveStep e)
                (oldT, ti, [])).2.2) := by
        unfold OComponents.realloc
        rw [hold]
        dsimp only
        rw [if_neg hcond, hfound]
        dsimp only [Option.getD]
        rw [if_neg hne]
        rw [hold, hti]
      refine ⟨i, _, _, hre, fun hh => hne hh.symm, ?_⟩
      intro c hco hcn
      have hcolsNew : ∀ c2 ∈ (oldT.header.intersection
          newHeader).inner.values, ((ti.columns.get? c2).isSome = true) := by
        intro c2 hc2
        rw [htiCols c2]
        have hcn2 := (hinter_contains c2 hc2).2
        have := CompSet.keyed_eqv_get? hkTi hkNew heqv c2
        unfold CompSet.contains SMap.containsKey at hcn2
        rw [this]
        exact hcn2
      have hget2 : (((cs.tables.set oldId
          ((oldT.header.intersection newHeader).inner.values.foldl
            (moveStep e) (oldT, ti, [])).1).set i
          (if oldT.header.len < newHeader.len
            then init ((oldT.header.intersection
              newHeader).inner.values.foldl (moveStep e)
              (oldT, ti, [])).2.1
            else ((oldT.header.intersection
              newHeader).inner.values.foldl (moveStep e)
              (oldT, ti, [])).2.1)).get? i) =
          some (if oldT.header.len < newHeader.len
            then init ((oldT.header.intersection
              newHeader).inner.values.foldl (moveStep e)
              (oldT, ti, [])).2.1
            else ((oldT.header.intersection
              newHeader).inner.values.foldl (moveStep e)
              (oldT, ti, [])).2.1) := by
        rw [List.get?_eq_getElem?, List.getElem?_set, if_pos rfl, if_pos]
        simp [hlenI]
      obtain ⟨h1, h2, h3⟩ := realloc_props e oldT ti _ newHeader dropFlag
        init hkOld hkNew hcolsNew hinit rfl _ rfl c hco hcn
      refine ⟨?_, h2, h3⟩
      rw [hget2]
      simpa using h1

/-- Witness for C6: entity 0 moves from the table with component set
`{0}` (holding the byte value 42 for component 0) to a fresh table with
component set `{0, 1}`; the 42 is readable in the new table, copied
once, never dropped. -/
theorem C6_realloc_preserves_moved_components_witness :
    ∃ newId cs2 evs,
      OComponents.realloc
          ⟨[(⟨[some 0], 1⟩, 0)],
            [⟨⟨[some 0], 1⟩, [some 0],
              [some ⟨fun j => if j = 0 then some 42 else none⟩]⟩]⟩
          0 0 ⟨[some 0, some 1], 2⟩ true id = (some newId, cs2, evs) ∧
      newId ≠ 0 ∧
      ∀ c, CompSet.contains ⟨[some 0], 1⟩ c = true →
        CompSet.contains ⟨[some 0, some 1], 2⟩ c = true →
        ((cs2.tables.get? newId).bind fun t => t.cell c 0) =
          OTable.cell
            ⟨⟨[some 0], 1⟩, [some 0],
              [some ⟨fun j => if j = 0 then some 42 else none⟩]⟩ c 0 ∧
        evs.count (MoveEv.copyEv c) = 1 ∧
        evs.count (MoveEv.dropEv c) = 0 :=
  C6_realloc_preserves_moved_components
    ⟨[(⟨[some 0], 1⟩, 0)],
      [⟨⟨[some 0], 1⟩, [some 0],
        [some ⟨fun j => if j = 0 then some 42 else none⟩]⟩]⟩
    0 0 ⟨[some 0, some 1], 2⟩ true id
    ⟨⟨[some 0], 1⟩, [some 0],
      [some ⟨fun j => if j = 0 then some 42 else none⟩]⟩
    rfl (by rfl) (by rfl) (by rfl) (by decide) (fun t c _ => rfl)

/-- **C10.** If the entity's table already contains component `cid`,
`EntityWorld::insert` replaces the value in place and returns the
previous value: the entity allocator (and hence the entity's
`(table, row)` address) is untouched, every other table is untouched,
the table keeps its component set, entity rows and row count, every
other column is untouched, the `cid` column changes only at the
entity's row (now the new value), and no `after_insert` hook is
invoked; the hook is invoked exactly when the component was newly
added. -/
theorem C10_insert_existing_replaces_in_place (w : MWorld) (id : EntityId)
    (cid v : Nat) (addr : EntityAddr) (t : MTable) (col : MColumn)
    (haddr : w.entities.get id = some addr)
    (htbl : w.components.tables.get? addr.table = some t)
    (hcol : t.columns.get? cid = some col) :
    (t.components.contains cid = true →
      (w.insert id cid v).1 = col.data addr.row ∧
      (w.insert id cid v).2.1.entities = w.entities ∧
      (w.insert id cid v).2.2 = [] ∧
      (∀ i, i ≠ addr.table →
        (w.insert id cid v).2.1.components.tables.get? i =
          w.components.tables.get? i) ∧
      (∃ t2, (w.insert id cid v).2.1.components.tables.get? addr.table =
          some t2 ∧
        t2.components = t.components ∧
        t2.entities = t.entities ∧
        t2.entityCount = t.entityCount ∧
        (∀ c, c ≠ cid → t2.columns.get? c = t.columns.get? c) ∧
        t2.columns.get? cid =
          some ⟨fun j => if j = addr.row then some v else col.data j⟩)) ∧
    (t.components.contains cid = false →
      (w.insert id cid v).2.2 = [cid]) := by
  have hlen : addr.table < w.components.tables.length := by
    by_contra hge
    rw [List.get?_eq_getElem?,
      List.getElem?_eq_none (Nat.le_of_not_lt hge)] at htbl
    cases htbl
  constructor
  · intro hc
    have hins : w.insert id cid v =
        ((t.replace addr.row cid v).1,
          ⟨w.entities,
            ⟨w.components.tables.set addr.table (t.replace addr.row cid v).2⟩⟩,
          []) := by
      unfold MWorld.insert
      rw [haddr]
      simp only []
      rw [htbl]
      simp only [hc, if_true]
    rw [hins]
    refine ⟨?_, rfl, rfl, ?_, ?_⟩
    · simp only [MTable.replace, MTable.cell]
      rw [hcol]
      rfl
    · intro i hi
      rw [List.get?_eq_getElem?, List.get?_eq_getElem?, List.getElem?_set,
        if_neg (fun hh => hi hh.symm)]
    · refine ⟨(t.replace addr.row cid v).2, ?_, ?_, ?_, ?_, ?_, ?_⟩
      · rw [List.get?_eq_getElem?, List.getElem?_set, if_pos rfl,
          if_pos hlen]
      · simp [MTable.replace, MTable.write, hcol]
      · simp [MTable.replace, MTable.write, hcol]
      · simp [MTable.replace, MTable.write, hcol]
      · intro c hcne
        simp only [MTable.replace, MTable.write, hcol]
        rw [SMap.get?_insert, if_neg hcne]
      · simp only [MTable.replace, MTable.write, hcol]
        rw [SMap.get?_insert, if_pos rfl]
  · intro hc
    unfold MWorld.insert
    rw [haddr]
    simp only []
    rw [htbl]
    simp only [hc, Bool.false_eq_true, if_false]

/-- Witness for C10 at a concrete world: entity `(0, 1)` at address
`(table 0, row 0)` in a table whose set is `{3}` and whose only column
holds value 9 at row 0; inserting component 3 with value 7 replaces in
place and fires no hook. -/
theorem C10_insert_existing_replaces_in_place_witness :
    ((MWorld.mk
        ⟨[⟨1, true, some ⟨0, 0⟩⟩], 0, [], 1, 0⟩
        ⟨[⟨⟨[none, none, none, some 3], 1⟩, [some 0], 1,
          [none, none, none,
            some ⟨fun r => if r = 0 then some 9 else none⟩]⟩]⟩).insert
      ⟨0, 1⟩ 3 7).1 = some 9 ∧
    ((MWorld.mk
        ⟨[⟨1, true, some ⟨0, 0⟩⟩], 0, [], 1, 0⟩
        ⟨[⟨⟨[none, none, none, some 3], 1⟩, [some 0], 1,
          [none, none, none,
            some ⟨fun r => if r = 0 then some 9 else none⟩]⟩]⟩).insert
      ⟨0, 1⟩ 3 7).2.2 = [] := by
  have h := C10_insert_existing_replaces_in_place
    (MWorld.mk
      ⟨[⟨1, true, some ⟨0, 0⟩⟩], 0, [], 1, 0⟩
      ⟨[⟨⟨[none, none, none, some 3], 1⟩, [some 0], 1,
        [none, none, none,
          some ⟨fun r => if r = 0 then some 9 else none⟩]⟩]⟩)
    ⟨0, 1⟩ 3 7 ⟨0, 0⟩
    ⟨⟨[none, none, none, some 3], 1⟩, [some 0], 1,
      [none, none, none,
        some ⟨fun r => if r = 0 then some 9 else none⟩]⟩
    ⟨fun r => if r = 0 then some 9 else none⟩
    rfl rfl rfl
  obtain ⟨h1, h2, h3, _⟩ := h.1 rfl
  exact ⟨h1, h3⟩

/-- Witness for C8 at concrete component sets
`{0, 2}`, `{0}` and `{2}`. -/
theorem C8_componentset_intersection_algebra_witness :
    CompSet.WF ⟨[some 0, none, some 2], 2⟩ = true ∧
    CompSet.WF ⟨[some 0], 1⟩ = true ∧
    CompSet.WF ⟨[none, none, some 2], 1⟩ = true ∧
    (CompSet.eqv
        (CompSet.intersection ⟨[some 0, none, some 2], 2⟩
          ⟨[some 0, none, some 2], 2⟩)
        ⟨[some 0, none, some 2], 2⟩ ∧
      CompSet.eqv
        (CompSet.intersection ⟨[some 0, none, some 2], 2⟩ ⟨[some 0], 1⟩)
        (CompSet.intersection ⟨[some 0], 1⟩ ⟨[some 0, none, some 2], 2⟩) ∧
      CompSet.eqv
        (CompSet.intersection
          (CompSet.intersection ⟨[some 0, none, some 2], 2⟩ ⟨[some 0], 1⟩)
          ⟨[none, none, some 2], 1⟩)
        (CompSet.intersection ⟨[some 0, none, some 2], 2⟩
          (CompSet.intersection ⟨[some 0], 1⟩ ⟨[none, none, some 2], 1⟩))) :=
  ⟨by decide, by decide, by decide,
    C8_componentset_intersection_algebra _ _ _
      (by decide) (by decide) (by decide)⟩

end Worldlines
